import Mathlib

/-!
# clawdotter vm-orchestrator: network allocator and storage provisioner

A shallow embedding of `internal/vm/network.go` and `internal/vm/storage.go`.

* Go values of type `error` are records of the `fmt.Errorf` call that built them.
* The mutex of `NetworkManager` is not modelled: calls run one after another.
* `exec.Command(...).CombinedOutput()`, `os.MkdirAll`, `os.Stat`, `os.Remove` and
  `os.RemoveAll` act on an explicit `World` (a file table and the log of the
  commands run so far); what the operating system answers is chosen by a `Host`.
* logrus calls have no effect on any result and are left out.
-/

namespace Clawdotter

/-! ## internal/config/config.go -/

/-- The orchestrator configuration, field for field. -/
structure Config where
  Port : Int
  Host : String
  RedisURL : String
  FirecrackerBin : String
  KernelPath : String
  BaseRootfsPath : String
  DefaultVCPU : Int
  DefaultMemMiB : Int
  VMSubnet : String
  BridgeName : String
  GatewayIP : String
  VMDataDir : String
  SocketDir : String

/-! ## Go values shared by both managers -/

/-- An error made by `fmt.Errorf(format, operands..., cause)`: the format string,
the operands given for its `%s`, `%q` and `%v` verbs in order (a string as it
is, before any quoting by `%q`; a string slice in the bracketed form `%v`
prints), and the text of the error wrapped by `%w` when there is one. -/
structure GoError where
  format : String
  operands : List String
  cause : Option String
deriving DecidableEq

/-- A file image: its length in bytes and whether it holds an ext4 filesystem. -/
structure File where
  size : Nat
  formatted : Bool
deriving DecidableEq

/-- An entry of the file table. -/
inductive Node where
  | dir : Node
  | file : File → Node
deriving DecidableEq

/-- The file table: what lives at each path string. -/
abbrev FS := String → Option Node

/-- The state of the machine the orchestrator runs on: the file table and the
argument vectors (program name first) of the commands run so far, oldest first. -/
structure World where
  fs : FS
  log : List (List String)

/-- What `CombinedOutput` hands back: the captured output and the error, if any. -/
structure CmdResult where
  out : String
  err : Option String
deriving DecidableEq

/-- The operating system as the orchestrator meets it. `command` answers a
subprocess run in a given world with its result and the file table it leaves;
`mkdirErr` says whether creating a missing directory fails; `removeAllErr` says
whether a recursive removal fails and, if so, which entries it removed anyway. -/
structure Host where
  command : World → List String → CmdResult × FS
  mkdirErr : FS → String → Option String
  removeAllErr : FS → String → Option (String × (String → Bool))

/-- Runs `exec.Command(argv[0], argv[1:]...).CombinedOutput()`: the command is
appended to the log and the host decides the outcome. -/
def CombinedOutput (h : Host) (w : World) (argv : List String) : CmdResult × World :=
  ((h.command w argv).1, { fs := (h.command w argv).2, log := w.log ++ [argv] })

/-! ## path/filepath (Unix) -/

/-- The elements of a path between its separators; `a//b` has an empty one. -/
def splitSlash : List Char → List (List Char)
  | [] => [[]]
  | c :: cs =>
    if c = '/' then [] :: splitSlash cs
    else
      match splitSlash cs with
      | [] => [[c]]
      | x :: xs => (c :: x) :: xs

/-- One round of the loop of `filepath.Clean` on the element `elem`; `stack` holds
the elements kept so far, the latest first. Empty and `.` elements are dropped;
`..` removes the latest kept element when that is not itself `..`, is kept on a
relative path that cannot back up further, and is dropped at the root. -/
def cleanStep (rooted : Bool) (stack : List (List Char)) (elem : List Char) :
    List (List Char) :=
  if elem = [] ∨ elem = ['.'] then stack
  else if elem = ['.', '.'] then
    match stack with
    | top :: rest =>
      if top = ['.', '.'] then (if rooted then stack else elem :: stack) else rest
    | [] => if rooted then [] else [elem]
  else elem :: stack

/-- Whether the path starts with a separator. -/
def isRooted (path : List Char) : Bool := path.head? = some '/'

/-- The elements `filepath.Clean` keeps, in path order. -/
def cleanElems (path : List Char) : List (List Char) :=
  ((splitSlash path).foldl (cleanStep (isRooted path)) []).reverse

/-- Elements written with one separator between neighbours. -/
def joinSlash : List (List Char) → List Char
  | [] => []
  | [x] => x
  | x :: y :: rest => x ++ '/' :: joinSlash (y :: rest)

/-- The function `filepath.Clean` on the characters of a path. -/
def cleanChars (path : List Char) : List Char :=
  if path = [] then ['.']
  else if isRooted path then '/' :: joinSlash (cleanElems path)
  else if cleanElems path = [] then ['.']
  else joinSlash (cleanElems path)

/-- The function `filepath.Clean`. -/
def Clean (path : String) : String := String.mk (cleanChars path.data)

/-- The call `filepath.Join(a, b)`: empty elements before the first non-empty one
are skipped, the rest is joined with `/` and cleaned; all empty gives `""`. -/
def Join (a b : String) : String :=
  if a ≠ "" then Clean (String.mk (a.data ++ '/' :: b.data))
  else if b ≠ "" then Clean b
  else ""

/-- The directory tree rooted at `dir` holds the path `p`: `p` names `dir` itself
or something below it. Both are compared by their cleaned elements. -/
def underDir (dir p : String) : Bool :=
  (isRooted dir.data == isRooted p.data) &&
    (cleanElems dir.data).isPrefixOf (cleanElems p.data) &&
    !((cleanElems p.data).drop (cleanElems dir.data).length).contains ['.', '.']

/-- The path `p` names something strictly below `dir`. -/
def strictlyInside (dir p : String) : Bool :=
  underDir dir p && decide ((cleanElems dir.data).length < (cleanElems p.data).length)

/-! ## package os, on the file table -/

/-- The call `os.MkdirAll(path, 0755)`: nothing to do for an existing directory, an
error for an existing file and for the empty path, otherwise the host decides;
on success `path` is a directory afterwards (its parents are not tracked). -/
def MkdirAll (h : Host) (fs : FS) (path : String) : Option String × FS :=
  match fs path with
  | some Node.dir => (none, fs)
  | some (Node.file _) => (some "not a directory", fs)
  | none =>
    if path = "" then (some "no such file or directory", fs)
    else
      match h.mkdirErr fs path with
      | some e => (some e, fs)
      | none => (none, fun p => if p = path then some Node.dir else fs p)

/-- Whether `os.Stat(path)` returns a nil error. -/
def statOk (fs : FS) (path : String) : Bool := (fs path).isSome

/-- The call `os.Remove(path)` with its error dropped, as `ProvisionDataVolume`
uses it: a file at `path` is gone afterwards, anything else is left as it was. -/
def Remove (fs : FS) (path : String) : FS :=
  match fs path with
  | some (Node.file _) => fun p => if p = path then none else fs p
  | _ => fs

/-- Whether `os.RemoveAll` refuses the path for ending in a `.` element. -/
def endsWithDot (path : String) : Bool :=
  path.data = ['.'] || ['/', '.'].isSuffixOf path.data

/-- The call `os.RemoveAll(path)`: nil for the empty path, an error for a path
ending in `.`, otherwise everything under `path` is removed, unless the host
fails the call, in which case only the entries it names are removed. -/
def RemoveAll (h : Host) (fs : FS) (path : String) : Option String × FS :=
  if path = "" then (none, fs)
  else if endsWithDot path then (some "invalid argument", fs)
  else
    match h.removeAllErr fs path with
    | some (e, gone) => (some e, fun p => if underDir path p && gone p then none else fs p)
    | none => (none, fun p => if underDir path p then none else fs p)

/-! ## internal/vm/network.go -/

/-- What `net.ParseCIDR` returns for an IPv4 subnet: the four address bytes read
as one big-endian number, and the number of leading one bits of the mask. -/
structure IPv4CIDR where
  ip : Nat
  ones : Nat
  ip_lt : ip < 2 ^ 32
  ones_le : ones ≤ 32

/-- The allocation table `map[string]string`, address to user. -/
abbrev Table := String → Option String

/-- The struct `NetworkManager` without its mutex. `subnetIP` is the four bytes
of the masked network address read as a big-endian number. -/
structure NetworkManager where
  cfg : Config
  allocated : Table
  nextIdx : Int
  subnetIP : Nat
  subnetLen : Int
  maxHosts : Int

/-- The mask `net.CIDRMask(ones, 32)` as a number. -/
def cidrMask (ones : Nat) : Nat := 2 ^ 32 - 2 ^ (32 - ones)

/-- The constructor `NewNetworkManager`; `parsed` is the outcome of
`net.ParseCIDR(cfg.VMSubnet)`. For an IPv4 mask `bits` is 32, and Go's `int` is
taken as 64 bits wide, so `1 << (bits - ones)` is the exact power of two. -/
def NewNetworkManager (cfg : Config) (parsed : Except String IPv4CIDR) :
    Except GoError NetworkManager :=
  match parsed with
  | Except.error e =>
    Except.error { format := "invalid VM_SUBNET %q: %w", operands := [cfg.VMSubnet], cause := some e }
  | Except.ok c =>
    Except.ok
      { cfg := cfg
        allocated := fun _ => none
        nextIdx := 1
        subnetIP := c.ip &&& cidrMask c.ones
        subnetLen := c.ones
        maxHosts := (2 : Int) ^ (32 - c.ones) - 2 }

/-- The method `net.IP.String` on a four-byte address given as a number. -/
def ipString (n : Nat) : String :=
  toString (n / 2 ^ 24 % 256) ++ "." ++ toString (n / 2 ^ 16 % 256) ++ "." ++
    toString (n / 2 ^ 8 % 256) ++ "." ++ toString (n % 256)

/-- The method `offsetToIP`: 32-bit wrapping addition, then dotted form. -/
def NetworkManager.offsetToIP (nm : NetworkManager) (offset : Int) : String :=
  ipString ((nm.subnetIP + (offset % 2 ^ 32).toNat) % 2 ^ 32)

/-- The table after `nm.allocated[ip] = userID`. -/
def Table.set (t : Table) (ip userID : String) : Table :=
  fun k => if k = ip then some userID else t k

/-- The table after `delete(nm.allocated, ip)`. -/
def Table.delete (t : Table) (ip : String) : Table :=
  fun k => if k = ip then none else t k

/-- The loop of `AllocateIP` with `rounds` iterations left, the next one at `offset`. -/
def NetworkManager.allocateFrom (nm : NetworkManager) (userID : String) :
    Nat → Int → (String × Option GoError) × NetworkManager
  | 0, _ =>
    (("", some { format := "no available IPs in subnet %s", operands := [nm.cfg.VMSubnet],
                 cause := none }), nm)
  | rounds + 1, offset =>
    match nm.allocated (nm.offsetToIP offset) with
    | none =>
      ((nm.offsetToIP offset, none),
        { nm with allocated := nm.allocated.set (nm.offsetToIP offset) userID })
    | some _ => nm.allocateFrom userID rounds (offset + 1)

/-- The method `AllocateIP`: `for offset := 2; offset <= nm.maxHosts; offset++`
runs `maxHosts - 1` times at most, and not at all when `maxHosts < 2`. -/
def NetworkManager.AllocateIP (nm : NetworkManager) (userID : String) :
    (String × Option GoError) × NetworkManager :=
  nm.allocateFrom userID (nm.maxHosts - 1).toNat 2

/-- The method `ReleaseIP`. -/
def NetworkManager.ReleaseIP (nm : NetworkManager) (ip : String) : NetworkManager :=
  { nm with allocated := nm.allocated.delete ip }

/-- The method `DestroyTapDevice`: the outcome of the delete is only logged. -/
def NetworkManager.DestroyTapDevice (_nm : NetworkManager) (h : Host) (w : World)
    (tapName : String) : World :=
  (CombinedOutput h w ["ip", "link", "del", tapName]).2

/-- The name `fmt.Sprintf("fc_tap%d", idx)`. -/
def tapNameOf (idx : Int) : String := "fc_tap" ++ toString idx

/-- The three creation commands of `CreateTapDevice`, in order. -/
def tapCommands (nm : NetworkManager) (tapName : String) : List (List String) :=
  [["ip", "tuntap", "add", "dev", tapName, "mode", "tap"],
   ["ip", "link", "set", tapName, "master", nm.cfg.BridgeName],
   ["ip", "link", "set", tapName, "up"]]

/-- The loop of `CreateTapDevice` over the commands still to run. -/
def NetworkManager.runTapCommands (nm : NetworkManager) (h : Host) (tapName : String) :
    List (List String) → World → (String × Option GoError) × World
  | [], w => ((tapName, none), w)
  | args :: rest, w =>
    match (CombinedOutput h w args).1.err with
    | some e =>
      (("", some { format := "failed to run %q: %s: %w"
                   operands := [String.intercalate " " args, (CombinedOutput h w args).1.out]
                   cause := some e }),
        nm.DestroyTapDevice h (CombinedOutput h w args).2 tapName)
    | none => nm.runTapCommands h tapName rest (CombinedOutput h w args).2

/-- The method `CreateTapDevice`; the result also carries the manager with its
index counter advanced (an unbounded integer here: the 64-bit counter of the
source would need 2^63 calls to wrap). -/
def NetworkManager.CreateTapDevice (nm : NetworkManager) (h : Host) (w : World)
    (_vmIP : String) : (String × Option GoError) × NetworkManager × World :=
  ((nm.runTapCommands h (tapNameOf nm.nextIdx) (tapCommands nm (tapNameOf nm.nextIdx)) w).1,
    { nm with nextIdx := nm.nextIdx + 1 },
    (nm.runTapCommands h (tapNameOf nm.nextIdx) (tapCommands nm (tapNameOf nm.nextIdx)) w).2)

/-- The literal `rules` of `SetupVMIsolation`. -/
def setupRules (nm : NetworkManager) (vmIP : String) : List (List String) :=
  [["-A", "FORWARD", "-s", vmIP, "-d", nm.cfg.GatewayIP, "-j", "ACCEPT"],
   ["-A", "FORWARD", "-s", vmIP, "!", "-d", nm.cfg.VMSubnet, "-j", "ACCEPT"],
   ["-A", "FORWARD", "-d", vmIP, "-m", "state", "--state", "ESTABLISHED,RELATED", "-j", "ACCEPT"],
   ["-A", "FORWARD", "-s", nm.cfg.GatewayIP, "-d", vmIP, "-j", "ACCEPT"],
   ["-A", "FORWARD", "-s", vmIP, "-d", nm.cfg.VMSubnet, "-j", "DROP"]]

/-- The literal `rules` of `CleanupVMIsolation`. -/
def cleanupRules (nm : NetworkManager) (vmIP : String) : List (List String) :=
  [["-D", "FORWARD", "-s", vmIP, "-d", nm.cfg.GatewayIP, "-j", "ACCEPT"],
   ["-D", "FORWARD", "-s", vmIP, "!", "-d", nm.cfg.VMSubnet, "-j", "ACCEPT"],
   ["-D", "FORWARD", "-d", vmIP, "-m", "state", "--state", "ESTABLISHED,RELATED", "-j", "ACCEPT"],
   ["-D", "FORWARD", "-s", nm.cfg.GatewayIP, "-d", vmIP, "-j", "ACCEPT"],
   ["-D", "FORWARD", "-s", vmIP, "-d", nm.cfg.VMSubnet, "-j", "DROP"]]

/-- The loop of `SetupVMIsolation` over the rules still to install. The operand
of `%v` is the rule as Go prints a string slice. -/
def runSetupRules (h : Host) : List (List String) → World → Option GoError × World
  | [], w => (none, w)
  | args :: rest, w =>
    match (CombinedOutput h w ("iptables" :: args)).1.err with
    | some e =>
      (some { format := "iptables rule %v failed: %s: %w"
              operands := ["[" ++ String.intercalate " " args ++ "]",
                           (CombinedOutput h w ("iptables" :: args)).1.out]
              cause := some e },
        (CombinedOutput h w ("iptables" :: args)).2)
    | none => runSetupRules h rest (CombinedOutput h w ("iptables" :: args)).2

/-- The method `SetupVMIsolation`. -/
def NetworkManager.SetupVMIsolation (nm : NetworkManager) (h : Host) (w : World)
    (vmIP : String) : Option GoError × World :=
  runSetupRules h (setupRules nm vmIP) w

/-- The loop of `CleanupVMIsolation`: `_ = cmd.Run()` for every rule. -/
def runCleanupRules (h : Host) : List (List String) → World → World
  | [], w => w
  | args :: rest, w => runCleanupRules h rest (CombinedOutput h w ("iptables" :: args)).2

/-- The method `CleanupVMIsolation`; it has no result. -/
def NetworkManager.CleanupVMIsolation (nm : NetworkManager) (h : Host) (w : World)
    (vmIP : String) : World :=
  runCleanupRules h (cleanupRules nm vmIP) w

/-! ## internal/vm/storage.go -/

/-- The struct `StorageManager`. -/
structure StorageManager where
  cfg : Config

/-- The constructor `NewStorageManager`. -/
def NewStorageManager (cfg : Config) : StorageManager := { cfg := cfg }

/-- The directory `filepath.Join(sm.cfg.VMDataDir, userID)` of a user. -/
def StorageManager.userDir (sm : StorageManager) (userID : String) : String :=
  Join sm.cfg.VMDataDir userID

/-- The path `filepath.Join(userDir, "rootfs.ext4")`. -/
def StorageManager.rootfsPath (sm : StorageManager) (userID : String) : String :=
  Join (sm.userDir userID) "rootfs.ext4"

/-- The path `filepath.Join(userDir, "data.ext4")`. -/
def StorageManager.dataPath (sm : StorageManager) (userID : String) : String :=
  Join (sm.userDir userID) "data.ext4"

/-- The method `ProvisionRootfs`. -/
def StorageManager.ProvisionRootfs (sm : StorageManager) (h : Host) (w : World)
    (userID : String) : (String × Option GoError) × World :=
  match (MkdirAll h w.fs (sm.userDir userID)).1 with
  | some e =>
    (("", some { format := "failed to create user VM dir: %w", operands := [], cause := some e }),
      { w with fs := (MkdirAll h w.fs (sm.userDir userID)).2 })
  | none =>
    let w1 : World := { w with fs := (MkdirAll h w.fs (sm.userDir userID)).2 }
    if statOk w1.fs (sm.rootfsPath userID) then ((sm.rootfsPath userID, none), w1)
    else
      let c1 := CombinedOutput h w1 ["cp", "--reflink=auto", sm.cfg.BaseRootfsPath, sm.rootfsPath userID]
      match c1.1.err with
      | none => ((sm.rootfsPath userID, none), c1.2)
      | some _ =>
        let c2 := CombinedOutput h c1.2 ["cp", sm.cfg.BaseRootfsPath, sm.rootfsPath userID]
        match c2.1.err with
        | some e2 =>
          (("", some { format := "failed to copy rootfs: %s: %w", operands := [c2.1.out],
                       cause := some e2 }), c2.2)
        | none => ((sm.rootfsPath userID, none), c2.2)

/-- The method `ProvisionDataVolume`. -/
def StorageManager.ProvisionDataVolume (sm : StorageManager) (h : Host) (w : World)
    (userID : String) (sizeMB : Int) : (String × Option GoError) × World :=
  match (MkdirAll h w.fs (sm.userDir userID)).1 with
  | some e =>
    (("", some { format := "failed to create user VM dir: %w", operands := [], cause := some e }),
      { w with fs := (MkdirAll h w.fs (sm.userDir userID)).2 })
  | none =>
    let w1 : World := { w with fs := (MkdirAll h w.fs (sm.userDir userID)).2 }
    if statOk w1.fs (sm.dataPath userID) then ((sm.dataPath userID, none), w1)
    else
      let c1 := CombinedOutput h w1 ["truncate", "-s", toString sizeMB ++ "M", sm.dataPath userID]
      match c1.1.err with
      | some e1 =>
        (("", some { format := "failed to create data volume: %s: %w", operands := [c1.1.out],
                     cause := some e1 }), c1.2)
      | none =>
        let c2 := CombinedOutput h c1.2 ["mkfs.ext4", "-q", "-F", sm.dataPath userID]
        match c2.1.err with
        | some e2 =>
          (("", some { format := "failed to format data volume: %s: %w", operands := [c2.1.out],
                       cause := some e2 }),
            { c2.2 with fs := Remove c2.2.fs (sm.dataPath userID) })
        | none => ((sm.dataPath userID, none), c2.2)

/-- The method `CleanupStorage`. -/
def StorageManager.CleanupStorage (sm : StorageManager) (h : Host) (w : World)
    (userID : String) : Option GoError × World :=
  match (RemoveAll h w.fs (sm.userDir userID)).1 with
  | some e =>
    (some { format := "failed to cleanup storage for %s: %w", operands := [userID], cause := some e },
      { w with fs := (RemoveAll h w.fs (sm.userDir userID)).2 })
  | none => (none, { w with fs := (RemoveAll h w.fs (sm.userDir userID)).2 })

/-- The method `GetSocketPath`. -/
def StorageManager.GetSocketPath (sm : StorageManager) (userID : String) : String :=
  Join sm.cfg.SocketDir (userID ++ ".sock")


/-! ## Vocabulary of the statements -/

/-- A call on the allocator. -/
inductive Op where
  | alloc : String → Op
  | release : String → Op
deriving DecidableEq

/-- The manager after one call. -/
def NetworkManager.step (nm : NetworkManager) : Op → NetworkManager
  | Op.alloc userID => (nm.AllocateIP userID).2
  | Op.release ip => nm.ReleaseIP ip

/-- The manager after a sequence of calls, run one after another. -/
def NetworkManager.run (nm : NetworkManager) : List Op → NetworkManager
  | [] => nm
  | op :: ops => (nm.step op).run ops

/-- What a run of `AllocateIP` calls, one per user, returns, and the manager it leaves. -/
def NetworkManager.allocateAll (nm : NetworkManager) :
    List String → List (String × Option GoError) × NetworkManager
  | [] => ([], nm)
  | u :: us =>
    ((nm.AllocateIP u).1 :: ((nm.AllocateIP u).2.allocateAll us).1,
      ((nm.AllocateIP u).2.allocateAll us).2)

/-- Every offset the loop of `AllocateIP` visits has its address in the table. -/
def NetworkManager.exhausted (nm : NetworkManager) : Prop :=
  ∀ m : Nat, 2 ≤ m → (m : Int) ≤ nm.maxHosts → nm.allocated (nm.offsetToIP m) ≠ none

/-- Entries only ever sit at addresses of offsets the loop visits. -/
def NetworkManager.inRange (nm : NetworkManager) : Prop :=
  ∀ ip u, nm.allocated ip = some u →
    ∃ o : Nat, 2 ≤ o ∧ (o : Int) ≤ nm.maxHosts ∧ ip = nm.offsetToIP o

/-- The table holds exactly the addresses of the offsets 2, ..., n + 1. -/
def NetworkManager.filled (nm : NetworkManager) (n : Nat) : Prop :=
  ∀ k, nm.allocated k ≠ none ↔ ∃ i : Nat, i < n ∧ k = nm.offsetToIP ((i + 2 : Nat) : Int)

/-- The error `AllocateIP` returns when its loop finds nothing. -/
def NetworkManager.poolError (nm : NetworkManager) : GoError :=
  { format := "no available IPs in subnet %s", operands := [nm.cfg.VMSubnet], cause := none }

/-- The value of a decimal digit character. -/
def digitVal (c : Char) : Nat := c.toNat - 48

/-- The number a list of decimal digits writes. -/
def parseDigits (cs : List Char) : Nat := cs.foldl (fun acc c => 10 * acc + digitVal c) 0

/-- The configuration `config.Load` builds when no variable is set. -/
def defaultConfig : Config where
  Port := 8080
  Host := "0.0.0.0"
  RedisURL := "redis://localhost:6379"
  FirecrackerBin := "/usr/local/bin/firecracker"
  KernelPath := "/var/lib/firecracker/vmlinux"
  BaseRootfsPath := "/var/lib/firecracker/rootfs/clawdbot.ext4"
  DefaultVCPU := 1
  DefaultMemMiB := 512
  VMSubnet := "10.0.1.0/24"
  BridgeName := "fcbr0"
  GatewayIP := "10.0.1.1"
  VMDataDir := "/var/lib/firecracker/vms"
  SocketDir := "/tmp/firecracker/sockets"

/-- The subnet 10.0.1.0/24 as parsed. -/
def cidr24 : IPv4CIDR := { ip := 167772416, ones := 24, ip_lt := by decide, ones_le := by decide }

/-- The manager `NewNetworkManager` builds over 10.0.1.0/24. -/
def nm24 : NetworkManager :=
  { cfg := defaultConfig
    allocated := fun _ => none
    nextIdx := 1
    subnetIP := 167772416
    subnetLen := 24
    maxHosts := 254 }

/-- The subnet 10.0.1.0/30 as parsed. -/
def cidr30 : IPv4CIDR := { ip := 167772416, ones := 30, ip_lt := by decide, ones_le := by decide }

/-- The default configuration with the subnet narrowed to 10.0.1.0/30. -/
def config30 : Config := { defaultConfig with VMSubnet := "10.0.1.0/30" }

/-- The manager `NewNetworkManager` builds over 10.0.1.0/30. -/
def nm30 : NetworkManager :=
  { cfg := config30
    allocated := fun _ => none
    nextIdx := 1
    subnetIP := 167772416
    subnetLen := 30
    maxHosts := 2 }

/-- The results the host gives to `cmds` when each is run in turn, whatever the
earlier ones returned. -/
def outcomes (h : Host) : World → List (List String) → List CmdResult
  | _, [] => []
  | w, c :: cs => (CombinedOutput h w c).1 :: outcomes h (CombinedOutput h w c).2 cs

/-- An argument vector of iptables with its `-A` turned into `-D`. -/
def appendToDelete : List String → List String
  | prog :: flag :: rest => if flag = "-A" then prog :: "-D" :: rest else prog :: flag :: rest
  | argv => argv

/-- The commands a call added to the log. -/
def issued (before after : World) : List (List String) :=
  after.log.drop before.log.length

/-- A host for examples: a command whose argument vector is listed in `bad` fails
with output "boom" and error "exit status 1", every other command succeeds
silently; no command touches the file table, and the os calls never fail. -/
def scriptedHost (bad : List (List String)) : Host where
  command := fun w argv =>
    (if argv ∈ bad then { out := "boom", err := some "exit status 1" }
      else { out := "", err := none }, w.fs)
  mkdirErr := fun _ _ => none
  removeAllErr := fun _ _ => none

/-- A world with no file and no command run yet. -/
def emptyWorld : World := { fs := fun _ => none, log := [] }

/-- A path element that `filepath.Clean` keeps as it is: not empty, not `.`, not
`..`, and without a separator. -/
def Plain (e : List Char) : Prop := e ≠ [] ∧ e ≠ ['.'] ∧ e ≠ ['.', '.'] ∧ '/' ∉ e

/-- The stacks the loop of `filepath.Clean` can hold: plain elements on top of `..`
elements, the latter only on a relative path. -/
def Canon (rooted : Bool) (stack : List (List Char)) : Prop :=
  ∃ (plain : List (List Char)) (k : Nat),
    stack = plain ++ List.replicate k ['.', '.'] ∧ (∀ e ∈ plain, Plain e) ∧
      (rooted = true → k = 0)

/-- Whether a user ID is a single plain path element. -/
def plainElement (s : String) : Bool :=
  decide (s.data ≠ []) && decide (s.data ≠ ['.']) && decide (s.data ≠ ['.', '.']) &&
    decide ('/' ∉ s.data)

/-- The storage of user `u` is apart from that of user `v`: the directory
`CleanupStorage u` removes lies strictly inside `VMDataDir`, is not the
directory of `v`, and does not contain it. -/
def StorageManager.apart (sm : StorageManager) (u v : String) : Bool :=
  strictlyInside sm.cfg.VMDataDir (sm.userDir u) &&
    decide (sm.userDir u ≠ sm.userDir v) && !underDir (sm.userDir u) (sm.userDir v)

/-- What the statements on provisioning ask of the programs `cp`, `truncate` and
`mkfs.ext4`: a run changes nothing but the path given as its last argument, and
a run that reports success leaves a file there. A failed run may leave
anything at that path. -/
def Host.WellBehaved (h : Host) : Prop :=
  ∀ (w : World) (argv : List String) (target : String),
    (argv.head? = some "cp" ∨ argv.head? = some "truncate" ∨ argv.head? = some "mkfs.ext4") →
    argv.getLast? = some target →
    (∀ p, p ≠ target → (h.command w argv).2 p = w.fs p) ∧
      ((h.command w argv).1.err = none → ∃ f, (h.command w argv).2 target = some (Node.file f))

/-- The byte count a size argument such as `512M` asks `truncate` for. -/
def sizeArg (s : String) : Nat := parseDigits (s.data.filter Char.isDigit) * 1048576

/-- The file table with `node` put at `path`. -/
def FS.put (fs : FS) (path : String) (node : Node) : FS :=
  fun p => if p = path then some node else fs p

/-- A host for examples. `cp` copies an existing source file, `mkfs.ext4` formats an
existing file, and `truncate` creates the file with the size asked for; with
`tooLarge` set, `truncate` behaves as on a filesystem whose file size limit
is below the size asked for: it creates the missing file empty and then
fails. Other commands succeed; the os calls never fail. -/
def storageHost (tooLarge : Bool) : Host where
  command := fun w argv =>
    if argv.head? = some "truncate" then
      if tooLarge then
        ({ out := "truncate: failed to truncate: File too large", err := some "exit status 1" },
          match w.fs (argv.getLast?.getD "") with
          | none => w.fs.put (argv.getLast?.getD "") (Node.file { size := 0, formatted := false })
          | some _ => w.fs)
      else
        ({ out := "", err := none },
          w.fs.put (argv.getLast?.getD "")
            (Node.file { size := sizeArg (argv.getD 2 ""), formatted := false }))
    else if argv.head? = some "mkfs.ext4" then
      match w.fs (argv.getLast?.getD "") with
      | some (Node.file f) =>
        ({ out := "", err := none },
          w.fs.put (argv.getLast?.getD "") (Node.file { f with formatted := true }))
      | _ => ({ out := "mkfs.ext4: no such file", err := some "exit status 1" }, w.fs)
    else if argv.head? = some "cp" then
      match w.fs (argv.getD (argv.length - 2) "") with
      | some (Node.file f) =>
        ({ out := "", err := none }, w.fs.put (argv.getLast?.getD "") (Node.file f))
      | _ => ({ out := "cp: cannot stat", err := some "exit status 1" }, w.fs)
    else ({ out := "", err := none }, w.fs)
  mkdirErr := fun _ _ => none
  removeAllErr := fun _ _ => none

/-- A world in which alice has both images under the default data directory. -/
def aliceWorld : World where
  fs := fun p =>
    if p = "/var/lib/firecracker/vms/alice/rootfs.ext4" then
      some (Node.file { size := 1073741824, formatted := true })
    else if p = "/var/lib/firecracker/vms/alice/data.ext4" then
      some (Node.file { size := 536870912, formatted := true })
    else if p = "/var/lib/firecracker/vms/alice" ∨ p = "/var/lib/firecracker/vms" then
      some Node.dir
    else none
  log := []

/-- A forwarded packet as the filter sees it: the two addresses as written in
dotted form, whether each lies in the VM subnet, and whether connection
tracking puts it in state ESTABLISHED or RELATED. -/
structure Packet where
  src : String
  srcInSubnet : Bool
  dst : String
  dstInSubnet : Bool
  established : Bool

/-- Whether the address argument `arg` of `-s` or `-d` covers an address: it is that
address, or it is the subnet and the address lies in it. -/
def covers (subnet arg addr : String) (inSubnet : Bool) : Bool :=
  arg = addr || (arg = subnet && inSubnet)

/-- Whether every match option of one iptables argument vector accepts the packet:
`-s` and `-d` test the addresses, a `!` before one inverts it, and
`--state ESTABLISHED,RELATED` tests the connection state. `negated` says
whether a `!` stands before the option being read. -/
def ruleMatches (subnet : String) (p : Packet) : Bool → List String → Bool
  | _, [] => true
  | negated, x :: rest =>
    if x = "!" then ruleMatches subnet p true rest
    else if x = "-s" then
      (covers subnet (rest.headD "") p.src p.srcInSubnet != negated) &&
        ruleMatches subnet p false rest
    else if x = "-d" then
      (covers subnet (rest.headD "") p.dst p.dstInSubnet != negated) &&
        ruleMatches subnet p false rest
    else if x = "--state" then
      (decide (rest.headD "" = "ESTABLISHED,RELATED") && p.established) &&
        ruleMatches subnet p false rest
    else ruleMatches subnet p false rest

/-- The target of the first installed vector that matches the packet, `none` when no
vector matches and the packet is left to whatever else the chain holds. -/
def verdict (subnet : String) (p : Packet) : List (List String) → Option String
  | [] => none
  | r :: rs => if ruleMatches subnet p false r then r.getLast? else verdict subnet p rs

/-! ## Lemmas: dotted addresses -/

set_option maxRecDepth 1000000 in
theorem octet_digits :
    ∀ a < 256, ('.' ∉ Nat.toDigits 10 a) ∧ parseDigits (Nat.toDigits 10 a) = a := by
  decide

theorem toDigits_octet_inj {a b : Nat} (ha : a < 256) (hb : b < 256)
    (h : Nat.toDigits 10 a = Nat.toDigits 10 b) : a = b := by
  have h1 := (octet_digits a ha).2
  have h2 := (octet_digits b hb).2
  rw [h] at h1
  exact h1.symm.trans h2

theorem append_dot_inj {x₁ x₂ z₁ z₂ : List Char} (h₁ : '.' ∉ x₁) (h₂ : '.' ∉ x₂)
    (h : x₁ ++ '.' :: z₁ = x₂ ++ '.' :: z₂) : x₁ = x₂ ∧ z₁ = z₂ := by
  induction x₁ generalizing x₂ with
  | nil =>
    cases x₂ with
    | nil => simpa using h
    | cons c cs =>
      simp only [List.nil_append, List.cons_append, List.cons.injEq] at h
      exact absurd (h.1 ▸ List.mem_cons_self _ _) h₂
  | cons c cs ih =>
    cases x₂ with
    | nil =>
      simp only [List.nil_append, List.cons_append, List.cons.injEq] at h
      exact absurd (h.1 ▸ List.mem_cons_self _ _) h₁
    | cons d ds =>
      simp only [List.cons_append, List.cons.injEq] at h
      have := ih (fun hm => h₁ (List.mem_cons_of_mem _ hm))
        (fun hm => h₂ (List.mem_cons_of_mem _ hm)) h.2
      exact ⟨by rw [h.1, this.1], this.2⟩

theorem ipString_data (n : Nat) :
    (ipString n).data = Nat.toDigits 10 (n / 2 ^ 24 % 256) ++ '.' ::
      (Nat.toDigits 10 (n / 2 ^ 16 % 256) ++ '.' ::
        (Nat.toDigits 10 (n / 2 ^ 8 % 256) ++ '.' :: Nat.toDigits 10 (n % 256))) := by
  simp [ipString, String.data_append, toString, Nat.repr, List.asString]

theorem ipString_inj {n m : Nat} (hn : n < 2 ^ 32) (hm : m < 2 ^ 32)
    (h : ipString n = ipString m) : n = m := by
  have hd := congrArg String.data h
  rw [ipString_data, ipString_data] at hd
  have o : ∀ k : Nat, k % 256 < 256 := fun k => Nat.mod_lt _ (by norm_num)
  have nd : ∀ k : Nat, '.' ∉ Nat.toDigits 10 (k % 256) := fun k => (octet_digits _ (o k)).1
  obtain ⟨e1, r1⟩ := append_dot_inj (nd _) (nd _) hd
  obtain ⟨e2, r2⟩ := append_dot_inj (nd _) (nd _) r1
  obtain ⟨e3, e4⟩ := append_dot_inj (nd _) (nd _) r2
  have a1 := toDigits_octet_inj (o _) (o _) e1
  have a2 := toDigits_octet_inj (o _) (o _) e2
  have a3 := toDigits_octet_inj (o _) (o _) e3
  have a4 := toDigits_octet_inj (o _) (o _) e4
  omega

theorem offsetToIP_inj (nm : NetworkManager) {i j : Nat} (hi : i < 2 ^ 32) (hj : j < 2 ^ 32)
    (h : nm.offsetToIP (i : Int) = nm.offsetToIP (j : Int)) : i = j := by
  unfold NetworkManager.offsetToIP at h
  have h' := ipString_inj (Nat.mod_lt _ (by norm_num)) (Nat.mod_lt _ (by norm_num)) h
  have ei : (((i : Int) % 2 ^ 32).toNat) = i := by omega
  have ej : (((j : Int) % 2 ^ 32).toNat) = j := by omega
  rw [ei, ej] at h'
  omega

/-! ## Lemmas: the allocation loop -/

theorem allocateFrom_cases (nm : NetworkManager) (u : String) (rounds j : Nat) :
    ((∀ i : Nat, j ≤ i → i < j + rounds → nm.allocated (nm.offsetToIP i) ≠ none) ∧
        nm.allocateFrom u rounds j = (("", some nm.poolError), nm)) ∨
      (∃ m : Nat, j ≤ m ∧ m < j + rounds ∧ nm.allocated (nm.offsetToIP m) = none ∧
        (∀ i : Nat, j ≤ i → i < m → nm.allocated (nm.offsetToIP i) ≠ none) ∧
        nm.allocateFrom u rounds j =
          ((nm.offsetToIP m, none),
            { nm with allocated := nm.allocated.set (nm.offsetToIP m) u })) := by
  induction rounds generalizing j with
  | zero =>
    left
    refine ⟨fun i h1 h2 => by omega, rfl⟩
  | succ r ih =>
    cases hj : nm.allocated (nm.offsetToIP (j : Int)) with
    | none =>
      right
      refine ⟨j, le_refl _, by omega, hj, fun i h1 h2 => by omega, ?_⟩
      simp only [NetworkManager.allocateFrom, hj]
    | some v =>
      have step : nm.allocateFrom u (r + 1) j = nm.allocateFrom u r ((j + 1 : Nat) : Int) := by
        simp only [NetworkManager.allocateFrom, hj]
        push_cast
        rfl
      rcases ih (j + 1) with ⟨hall, heq⟩ | ⟨m, h1, h2, h3, h4, heq⟩
      · left
        refine ⟨fun i hi1 hi2 => ?_, by rw [step, heq]⟩
        rcases Nat.eq_or_lt_of_le hi1 with e | l
        · subst e
          rw [hj]
          exact Option.some_ne_none v
        · exact hall i l (by omega)
      · right
        refine ⟨m, by omega, by omega, h3, fun i hi1 hi2 => ?_, by rw [step, heq]⟩
        rcases Nat.eq_or_lt_of_le hi1 with e | l
        · subst e
          rw [hj]
          exact Option.some_ne_none v
        · exact h4 i l hi2

theorem AllocateIP_cases (nm : NetworkManager) (u : String) :
    (nm.exhausted ∧ nm.AllocateIP u = (("", some nm.poolError), nm)) ∨
      (∃ m : Nat, 2 ≤ m ∧ (m : Int) ≤ nm.maxHosts ∧ nm.allocated (nm.offsetToIP m) = none ∧
        (∀ i : Nat, 2 ≤ i → i < m → nm.allocated (nm.offsetToIP i) ≠ none) ∧
        nm.AllocateIP u =
          ((nm.offsetToIP m, none),
            { nm with allocated := nm.allocated.set (nm.offsetToIP m) u })) := by
  rcases allocateFrom_cases nm u (nm.maxHosts - 1).toNat 2 with ⟨hall, heq⟩ | ⟨m, h1, h2, h3, h4, heq⟩
  · left
    exact ⟨fun m h1 h2 => hall m h1 (by omega), heq⟩
  · right
    exact ⟨m, h1, by omega, h3, h4, heq⟩

theorem New_ok {cfg : Config} {cidr : IPv4CIDR} {nm0 : NetworkManager}
    (h : NewNetworkManager cfg (Except.ok cidr) = Except.ok nm0) :
    nm0 = { cfg := cfg, allocated := fun _ => none, nextIdx := 1,
            subnetIP := cidr.ip &&& cidrMask cidr.ones, subnetLen := cidr.ones,
            maxHosts := (2 : Int) ^ (32 - cidr.ones) - 2 } := by
  simp only [NewNetworkManager] at h
  injection h with h
  exact h.symm

theorem pow_cast_two (h : Nat) : ((2 : Int) ^ h) = ((2 ^ h : Nat) : Int) := by
  push_cast
  rfl

theorem hostPow_le (cidr : IPv4CIDR) : 2 ^ (32 - cidr.ones) ≤ 2 ^ 32 :=
  Nat.pow_le_pow_right (by norm_num) (Nat.sub_le _ _)

theorem offsetToIP_congr {a b : NetworkManager} (h : a.subnetIP = b.subnetIP) (o : Int) :
    a.offsetToIP o = b.offsetToIP o := by
  simp only [NetworkManager.offsetToIP, h]

theorem AllocateIP_ok {nm : NetworkManager} {u ip : String}
    (h : (nm.AllocateIP u).1 = (ip, none)) :
    ∃ m : Nat, 2 ≤ m ∧ (m : Int) ≤ nm.maxHosts ∧ ip = nm.offsetToIP m ∧
      nm.allocated ip = none ∧
      (∀ i : Nat, 2 ≤ i → i < m → nm.allocated (nm.offsetToIP i) ≠ none) ∧
      (nm.AllocateIP u).2 = { nm with allocated := nm.allocated.set ip u } := by
  rcases AllocateIP_cases nm u with ⟨_, heq⟩ | ⟨m, h1, h2, h3, h4, heq⟩
  · rw [heq] at h
    simp at h
  · rw [heq] at h
    simp only [Prod.mk.injEq, and_true] at h
    subst h
    exact ⟨m, h1, h2, rfl, h3, h4, by rw [heq]⟩

theorem AllocateIP_static (nm : NetworkManager) (u : String) :
    (nm.AllocateIP u).2.subnetIP = nm.subnetIP ∧ (nm.AllocateIP u).2.maxHosts = nm.maxHosts ∧
      (nm.AllocateIP u).2.nextIdx = nm.nextIdx ∧ (nm.AllocateIP u).2.cfg = nm.cfg ∧
      (nm.AllocateIP u).2.subnetLen = nm.subnetLen := by
  rcases AllocateIP_cases nm u with ⟨_, heq⟩ | ⟨m, _, _, _, _, heq⟩ <;> rw [heq] <;> simp

theorem step_static (nm : NetworkManager) (op : Op) :
    (nm.step op).subnetIP = nm.subnetIP ∧ (nm.step op).maxHosts = nm.maxHosts := by
  cases op with
  | alloc u => exact ⟨(AllocateIP_static nm u).1, (AllocateIP_static nm u).2.1⟩
  | release ip => exact ⟨rfl, rfl⟩

theorem run_static (nm : NetworkManager) (ops : List Op) :
    (nm.run ops).subnetIP = nm.subnetIP ∧ (nm.run ops).maxHosts = nm.maxHosts := by
  induction ops generalizing nm with
  | nil => exact ⟨rfl, rfl⟩
  | cons op ops ih =>
    have h1 := ih (nm.step op)
    have h2 := step_static nm op
    exact ⟨h1.1.trans h2.1, h1.2.trans h2.2⟩

theorem step_inRange (nm : NetworkManager) (op : Op) (h : nm.inRange) : (nm.step op).inRange := by
  intro ip u hu
  have hs := step_static nm op
  have conv : ∀ o : Nat, (2 ≤ o ∧ (o : Int) ≤ nm.maxHosts ∧ ip = nm.offsetToIP o) →
      ∃ o : Nat, 2 ≤ o ∧ (o : Int) ≤ (nm.step op).maxHosts ∧ ip = (nm.step op).offsetToIP o := by
    intro o ho
    exact ⟨o, ho.1, by rw [hs.2]; exact ho.2.1, by rw [offsetToIP_congr hs.1]; exact ho.2.2⟩
  cases op with
  | alloc v =>
    simp only [NetworkManager.step] at hu
    rcases AllocateIP_cases nm v with ⟨_, heq⟩ | ⟨m, h1, h2, _, _, heq⟩
    · rw [heq] at hu
      obtain ⟨o, ho⟩ := h ip u hu
      exact conv o ho
    · rw [heq] at hu
      simp only [Table.set] at hu
      by_cases hk : ip = nm.offsetToIP m
      · exact conv m ⟨h1, h2, hk⟩
      · rw [if_neg hk] at hu
        obtain ⟨o, ho⟩ := h ip u hu
        exact conv o ho
  | release r =>
    simp only [NetworkManager.step, NetworkManager.ReleaseIP, Table.delete] at hu
    by_cases hk : ip = r
    · rw [if_pos hk] at hu
      exact absurd hu (by simp)
    · rw [if_neg hk] at hu
      obtain ⟨o, ho⟩ := h ip u hu
      exact conv o ho

theorem run_inRange (nm : NetworkManager) (ops : List Op) (h : nm.inRange) :
    (nm.run ops).inRange := by
  induction ops generalizing nm with
  | nil => exact h
  | cons op ops ih => exact ih (nm.step op) (step_inRange nm op h)

theorem step_keeps (nm : NetworkManager) (op : Op) (ip : String)
    (h : nm.allocated ip ≠ none) (hop : op ≠ Op.release ip) :
    (nm.step op).allocated ip ≠ none := by
  cases op with
  | alloc v =>
    simp only [NetworkManager.step]
    rcases AllocateIP_cases nm v with ⟨_, heq⟩ | ⟨m, _, _, _, _, heq⟩
    · rw [heq]
      exact h
    · rw [heq]
      simp only [Table.set]
      by_cases hk : ip = nm.offsetToIP m
      · rw [if_pos hk]
        simp
      · rw [if_neg hk]
        exact h
  | release r =>
    simp only [NetworkManager.step, NetworkManager.ReleaseIP, Table.delete]
    have : ip ≠ r := fun e => hop (by rw [e])
    rw [if_neg this]
    exact h

theorem run_keeps (nm : NetworkManager) (ops : List Op) (ip : String)
    (h : nm.allocated ip ≠ none) (hops : Op.release ip ∉ ops) :
    (nm.run ops).allocated ip ≠ none := by
  induction ops generalizing nm with
  | nil => exact h
  | cons op ops ih =>
    have h1 : op ≠ Op.release ip := fun e => hops (by rw [e]; exact List.mem_cons_self _ _)
    have h2 : Op.release ip ∉ ops := fun hm => hops (List.mem_cons_of_mem _ hm)
    exact ih (nm.step op) (step_keeps nm op ip h h1) h2

theorem subnet_room (cidr : IPv4CIDR) :
    (cidr.ip &&& cidrMask cidr.ones) + 2 ^ (32 - cidr.ones) ≤ 2 ^ 32 := by
  have h1 : cidr.ip &&& cidrMask cidr.ones ≤ cidrMask cidr.ones := Nat.and_le_right
  have h2 := hostPow_le cidr
  unfold cidrMask at h1 ⊢
  omega

theorem offsetToIP_nowrap (nm : NetworkManager) (m : Nat) (h : nm.subnetIP + m < 2 ^ 32) :
    nm.offsetToIP (m : Int) = ipString (nm.subnetIP + m) := by
  unfold NetworkManager.offsetToIP
  have e1 : (((m : Int) % 2 ^ 32).toNat) = m := by omega
  rw [e1, Nat.mod_eq_of_lt h]

/-- Claim C1. First-fit allocation: on a manager built by `NewNetworkManager` over an
IPv4 subnet, with any allocation table and any interface counter, if some offset
`o` with `2 ≤ o ≤ 2^hostBits - 2` has its address absent from the table, then
`AllocateIP userID` returns, without error, the address of the least such offset
`m` (which is the dotted form of network address plus `m`, with no 32-bit wrap),
and the manager afterwards differs from the one before only in that the table
maps that address to `userID`. -/
theorem C1_first_fit (cfg : Config) (cidr : IPv4CIDR) (nm0 : NetworkManager)
    (hnew : NewNetworkManager cfg (Except.ok cidr) = Except.ok nm0)
    (table : Table) (idx : Int) (userID : String) (o : Nat)
    (ho2 : 2 ≤ o) (hoM : o ≤ 2 ^ (32 - cidr.ones) - 2)
    (hfree : table (nm0.offsetToIP o) = none) :
    ∃ m : Nat, 2 ≤ m ∧ m ≤ o ∧ table (nm0.offsetToIP m) = none ∧
      (∀ i : Nat, 2 ≤ i → i < m → table (nm0.offsetToIP i) ≠ none) ∧
      nm0.subnetIP + m < 2 ^ 32 ∧
      nm0.offsetToIP m = ipString (nm0.subnetIP + m) ∧
      ({ nm0 with allocated := table, nextIdx := idx } : NetworkManager).AllocateIP userID =
        ((nm0.offsetToIP m, none),
          { nm0 with
            allocated := fun k => if k = nm0.offsetToIP m then some userID else table k
            nextIdx := idx }) := by
  have e := New_ok hnew
  subst e
  have hP := pow_cast_two (32 - cidr.ones)
  have hroom := subnet_room cidr
  generalize hPdef : 2 ^ (32 - cidr.ones) = P at hP hoM hroom
  rcases AllocateIP_cases
      ({ cfg := cfg, allocated := table, nextIdx := idx,
         subnetIP := cidr.ip &&& cidrMask cidr.ones, subnetLen := cidr.ones,
         maxHosts := (2 : Int) ^ (32 - cidr.ones) - 2 } : NetworkManager) userID with
    ⟨hall, _⟩ | ⟨m, h1, h2, h3, h4, heq⟩
  · exact absurd hfree (hall o ho2 (by simp only [hP]; omega))
  · have hmo : m ≤ o := by
      by_contra hlt
      exact h4 o ho2 (by omega) hfree
    refine ⟨m, h1, hmo, h3, h4, ?_, ?_, heq⟩
    · show (cidr.ip &&& cidrMask cidr.ones) + m < 2 ^ 32
      omega
    · exact offsetToIP_nowrap _ m (by simp only; omega)

/-- Witness for C1 on 10.0.1.0/24: alice, bob, `ReleaseIP "10.0.1.2"`, carol get
10.0.1.2, 10.0.1.3 and 10.0.1.2 again; and the theorem applied to the table
left by the first three calls, where offset 2 is free. -/
theorem C1_first_fit_witness :
    NewNetworkManager defaultConfig (Except.ok cidr24) = Except.ok nm24 ∧
    (nm24.AllocateIP "alice").1 = ("10.0.1.2", none) ∧
    ((nm24.AllocateIP "alice").2.AllocateIP "bob").1 = ("10.0.1.3", none) ∧
    ((((nm24.AllocateIP "alice").2.AllocateIP "bob").2.ReleaseIP "10.0.1.2").AllocateIP
      "carol").1 = ("10.0.1.2", none) ∧
    ∃ m : Nat, 2 ≤ m ∧ m ≤ 2 ∧
      (((nm24.AllocateIP "alice").2.AllocateIP "bob").2.ReleaseIP "10.0.1.2").allocated
        (nm24.offsetToIP m) = none ∧
      (∀ i : Nat, 2 ≤ i → i < m →
        (((nm24.AllocateIP "alice").2.AllocateIP "bob").2.ReleaseIP "10.0.1.2").allocated
          (nm24.offsetToIP i) ≠ none) ∧
      nm24.subnetIP + m < 2 ^ 32 ∧
      nm24.offsetToIP m = ipString (nm24.subnetIP + m) ∧
      ({ nm24 with
          allocated :=
            (((nm24.AllocateIP "alice").2.AllocateIP "bob").2.ReleaseIP "10.0.1.2").allocated
          nextIdx := 1 } : NetworkManager).AllocateIP "carol" =
        ((nm24.offsetToIP m, none),
          { nm24 with
            allocated := fun k =>
              if k = nm24.offsetToIP m then some "carol"
              else (((nm24.AllocateIP "alice").2.AllocateIP "bob").2.ReleaseIP
                "10.0.1.2").allocated k
            nextIdx := 1 }) :=
  ⟨rfl, by decide, by decide, by decide,
    C1_first_fit defaultConfig cidr24 nm24 rfl
      (((nm24.AllocateIP "alice").2.AllocateIP "bob").2.ReleaseIP "10.0.1.2").allocated
      1 "carol" 2 (by decide) (by decide) (by decide)⟩

theorem fresh_inRange {cfg : Config} {cidr : IPv4CIDR} {nm0 : NetworkManager}
    (hnew : NewNetworkManager cfg (Except.ok cidr) = Except.ok nm0) : nm0.inRange := by
  have e := New_ok hnew
  subst e
  intro ip u hu
  simp at hu

/-- Claim C2. AddressPool invariant: after any finite sequence `ops` of `AllocateIP`
and `ReleaseIP` calls on a freshly built manager over an IPv4 subnet,
(i) every address in the table is the address of an offset strictly above the
gateway offset 1 and strictly below the broadcast offset `2^hostBits - 1`, and an
address a successful `AllocateIP` returns is such an address, different from the
network (offset 0), gateway (offset 1) and broadcast addresses;
(ii) if a successful `AllocateIP` returns `ip` and, after further calls `mid`,
another successful `AllocateIP` returns `ip` too, then `mid` holds a
`ReleaseIP ip`; and `AllocateIP` never changes the owner of an address the
table already holds. -/
theorem C2_address_pool_invariant (cfg : Config) (cidr : IPv4CIDR) (nm0 : NetworkManager)
    (hnew : NewNetworkManager cfg (Except.ok cidr) = Except.ok nm0) (ops : List Op) :
    (∀ ip u, (nm0.run ops).allocated ip = some u →
      ∃ o : Nat, 1 < o ∧ o < 2 ^ (32 - cidr.ones) - 1 ∧ ip = nm0.offsetToIP o) ∧
    (∀ userID ip, ((nm0.run ops).AllocateIP userID).1 = (ip, none) →
      (∃ o : Nat, 1 < o ∧ o < 2 ^ (32 - cidr.ones) - 1 ∧ ip = nm0.offsetToIP o) ∧
        ip ≠ nm0.offsetToIP 0 ∧ ip ≠ nm0.offsetToIP 1 ∧
        ip ≠ nm0.offsetToIP ((2 ^ (32 - cidr.ones) - 1 : Nat) : Int)) ∧
    (∀ u1 mid u2 ip, ((nm0.run ops).AllocateIP u1).1 = (ip, none) →
      ((((nm0.run ops).AllocateIP u1).2.run mid).AllocateIP u2).1 = (ip, none) →
      Op.release ip ∈ mid) ∧
    (∀ userID ip u, (nm0.run ops).allocated ip = some u →
      ((nm0.run ops).AllocateIP userID).2.allocated ip = some u) := by
  have hin := run_inRange nm0 ops (fresh_inRange hnew)
  have hst := run_static nm0 ops
  have e := New_ok hnew
  have hmax : nm0.maxHosts = (2 : Int) ^ (32 - cidr.ones) - 2 := by rw [e]
  have hP := pow_cast_two (32 - cidr.ones)
  have hle := hostPow_le cidr
  generalize 2 ^ (32 - cidr.ones) = P at hP hle
  rw [hP] at hmax
  have range : ∀ (ip : String) (o : Nat), 2 ≤ o → (o : Int) ≤ (nm0.run ops).maxHosts →
      ip = (nm0.run ops).offsetToIP o →
      ∃ o : Nat, 1 < o ∧ o < P - 1 ∧ ip = nm0.offsetToIP o := by
    intro ip o h1 h2 h3
    rw [hst.2, hmax] at h2
    exact ⟨o, by omega, by omega, by rw [h3]; exact offsetToIP_congr hst.1 _⟩
  refine ⟨?_, ?_, ?_, ?_⟩
  · intro ip u hu
    obtain ⟨o, h1, h2, h3⟩ := hin ip u hu
    exact range ip o h1 h2 h3
  · intro userID ip hret
    obtain ⟨m, h1, h2, h3, _, _, _⟩ := AllocateIP_ok hret
    have hr := range ip m h1 h2 h3
    refine ⟨hr, ?_⟩
    obtain ⟨o, ho1, ho2, ho3⟩ := hr
    have ne : ∀ j : Nat, j < 2 ^ 32 → j ≠ o → ip ≠ nm0.offsetToIP (j : Int) := by
      intro j hj hne heq
      rw [ho3] at heq
      exact hne (offsetToIP_inj nm0 (by omega) hj heq).symm
    exact ⟨ne 0 (by norm_num) (by omega), ne 1 (by norm_num) (by omega),
      ne (P - 1) (by omega) (by omega)⟩
  · intro u1 mid u2 ip hfirst hsecond
    by_contra hno
    obtain ⟨_, _, _, _, _, _, hstate⟩ := AllocateIP_ok hfirst
    have held : ((nm0.run ops).AllocateIP u1).2.allocated ip ≠ none := by
      rw [hstate]
      simp [Table.set]
    have still := run_keeps _ mid ip held hno
    obtain ⟨_, _, _, _, hfree, _, _⟩ := AllocateIP_ok hsecond
    exact still hfree
  · intro userID ip u hu
    rcases AllocateIP_cases (nm0.run ops) userID with ⟨_, heq⟩ | ⟨m, _, _, h3, _, heq⟩
    · rw [heq]
      exact hu
    · rw [heq]
      simp only [Table.set]
      by_cases hk : ip = (nm0.run ops).offsetToIP m
      · rw [hk, h3] at hu
        exact absurd hu (by simp)
      · rw [if_neg hk]
        exact hu

/-- Witness for C2 on 10.0.1.0/24 with the calls alice, bob, `ReleaseIP "10.0.1.2"`:
the table holds 10.0.1.3 (offset 3) only, and the next allocation returns
10.0.1.2, which is none of 10.0.1.0, 10.0.1.1 and 10.0.1.255. -/
theorem C2_address_pool_invariant_witness :
    NewNetworkManager defaultConfig (Except.ok cidr24) = Except.ok nm24 ∧
    (nm24.run [Op.alloc "alice", Op.alloc "bob", Op.release "10.0.1.2"]).allocated "10.0.1.3"
      = some "bob" ∧
    ((nm24.run [Op.alloc "alice", Op.alloc "bob", Op.release "10.0.1.2"]).AllocateIP "carol").1
      = ("10.0.1.2", none) ∧
    nm24.offsetToIP 0 = "10.0.1.0" ∧ nm24.offsetToIP 1 = "10.0.1.1" ∧
    nm24.offsetToIP 255 = "10.0.1.255" ∧
    ("10.0.1.2" ≠ nm24.offsetToIP 0 ∧ "10.0.1.2" ≠ nm24.offsetToIP 1 ∧
      "10.0.1.2" ≠ nm24.offsetToIP ((2 ^ (32 - cidr24.ones) - 1 : Nat) : Int)) :=
  ⟨rfl, by decide, by decide, by decide, by decide, by decide,
    ((C2_address_pool_invariant defaultConfig cidr24 nm24 rfl
      [Op.alloc "alice", Op.alloc "bob", Op.release "10.0.1.2"]).2.1 "carol" "10.0.1.2"
        (by decide)).2⟩

theorem exhausted_AllocateIP (nm : NetworkManager) (u : String) :
    (nm.exhausted → nm.AllocateIP u = (("", some nm.poolError), nm)) ∧
      (¬ nm.exhausted → (nm.AllocateIP u).1.2 = none) := by
  rcases AllocateIP_cases nm u with ⟨hex, heq⟩ | ⟨m, h1, h2, h3, _, heq⟩
  · exact ⟨fun _ => heq, fun h => absurd hex h⟩
  · exact ⟨fun h => absurd h3 (h m h1 h2), fun _ => by rw [heq]⟩

theorem filled_set (nm : NetworkManager) (n : Nat) (u : String) (hf : nm.filled n) :
    NetworkManager.filled
      { nm with allocated := nm.allocated.set (nm.offsetToIP ((n + 2 : Nat) : Int)) u }
      (n + 1) := by
  intro k
  show (if k = nm.offsetToIP ((n + 2 : Nat) : Int) then some u else nm.allocated k) ≠ none ↔
    ∃ i : Nat, i < n + 1 ∧ k = nm.offsetToIP ((i + 2 : Nat) : Int)
  by_cases hk : k = nm.offsetToIP ((n + 2 : Nat) : Int)
  · rw [if_pos hk]
    exact ⟨fun _ => ⟨n, by omega, hk⟩, fun _ => by simp⟩
  · rw [if_neg hk]
    constructor
    · intro hne
      obtain ⟨i, hi, hik⟩ := (hf k).1 hne
      exact ⟨i, by omega, hik⟩
    · rintro ⟨i, hi, hik⟩
      rcases Nat.eq_or_lt_of_le (Nat.lt_succ_iff.mp hi) with e | l
      · subst e
        exact absurd hik hk
      · exact (hf k).2 ⟨i, l, hik⟩

theorem allocateAll_filled (users : List String) :
    ∀ (nm : NetworkManager) (n : Nat), nm.filled n →
      (users.length = 0 ∨ ((n + users.length : Nat) : Int) + 1 ≤ nm.maxHosts) →
      nm.maxHosts < 2 ^ 32 →
      (nm.allocateAll users).1 =
          (List.range users.length).map
            (fun i => (nm.offsetToIP ((n + i + 2 : Nat) : Int), (none : Option GoError))) ∧
        (nm.allocateAll users).2.filled (n + users.length) ∧
        (nm.allocateAll users).2.subnetIP = nm.subnetIP ∧
        (nm.allocateAll users).2.maxHosts = nm.maxHosts := by
  induction users with
  | nil =>
    intro nm n hf _ _
    exact ⟨rfl, hf, rfl, rfl⟩
  | cons u us ih =>
    intro nm n hf hlen hmax
    simp only [List.length_cons] at hlen
    have hlen : ((n + (us.length + 1) : Nat) : Int) + 1 ≤ nm.maxHosts := by
      rcases hlen with h0 | h1
      · omega
      · exact h1
    have hfree : nm.allocated (nm.offsetToIP ((n + 2 : Nat) : Int)) = none := by
      by_contra hne
      obtain ⟨i, hi, heq⟩ := (hf _).1 hne
      have := offsetToIP_inj nm (by omega) (by omega) heq
      omega
    rcases AllocateIP_cases nm u with ⟨hex, _⟩ | ⟨m, h1, h2, h3, h4, heq⟩
    · exact absurd hfree (hex (n + 2) (by omega) (by omega))
    · have hm : m = n + 2 := by
        rcases Nat.lt_trichotomy m (n + 2) with hlt | heq2 | hgt
        · exact absurd h3 ((hf _).2 ⟨m - 2, by omega, by
            have : m - 2 + 2 = m := by omega
            rw [this]⟩)
        · exact heq2
        · exact absurd hfree (h4 (n + 2) (by omega) hgt)
      subst hm
      have hf' : (nm.AllocateIP u).2.filled (n + 1) := by
        rw [heq]
        exact filled_set nm n u hf
      have hs := AllocateIP_static nm u
      obtain ⟨r1, r2, r3, r4⟩ := ih (nm.AllocateIP u).2 (n + 1) hf'
        (by rw [hs.2.1]; right; omega) (by rw [hs.2.1]; exact hmax)
      refine ⟨?_, ?_, by rw [NetworkManager.allocateAll, r3, hs.1],
        by rw [NetworkManager.allocateAll, r4, hs.2.1]⟩
      · simp only [NetworkManager.allocateAll, List.length_cons, List.range_succ_eq_map,
          List.map_cons, List.map_map, r1]
        refine congrArg₂ _ ?_ ?_
        · rw [heq]
        · apply List.map_congr_left
          intro i _
          simp only [Function.comp]
          rw [offsetToIP_congr hs.1]
          have : n + 1 + i + 2 = n + (i + 1) + 2 := by omega
          rw [this]
      · simp only [NetworkManager.allocateAll, List.length_cons]
        have : n + (us.length + 1) = n + 1 + us.length := by omega
        rw [this]
        exact r2

/-- Claim C3. Exhaustion: on a manager built over an IPv4 subnet, with any table and
counter: if every offset from 2 to `2^hostBits - 2` has its address in the
table, `AllocateIP` returns the empty address with the pool error and leaves the
manager exactly as it was; if one of those offsets is free it returns no error.
From the fresh manager, any `n ≤ 2^hostBits - 3` allocations in a row with no
release all succeed, handing out offsets 2, 3, ..., and the pool they leave is
exhausted exactly when `n = 2^hostBits - 3` (the subtraction is truncated: for
a /31 or /32 the fresh pool is already exhausted). -/
theorem C3_exhaustion (cfg : Config) (cidr : IPv4CIDR) (nm0 : NetworkManager)
    (hnew : NewNetworkManager cfg (Except.ok cidr) = Except.ok nm0) :
    (∀ (table : Table) (idx : Int) (userID : String),
      ((∀ m : Nat, 2 ≤ m → m ≤ 2 ^ (32 - cidr.ones) - 2 → table (nm0.offsetToIP m) ≠ none) →
        ({ nm0 with allocated := table, nextIdx := idx } : NetworkManager).AllocateIP userID =
          (("", some { format := "no available IPs in subnet %s", operands := [cfg.VMSubnet],
                       cause := none }),
            { nm0 with allocated := table, nextIdx := idx })) ∧
      ((∃ m : Nat, 2 ≤ m ∧ m ≤ 2 ^ (32 - cidr.ones) - 2 ∧ table (nm0.offsetToIP m) = none) →
        (({ nm0 with allocated := table, nextIdx := idx } : NetworkManager).AllocateIP
          userID).1.2 = none)) ∧
    (∀ users : List String, users.length ≤ 2 ^ (32 - cidr.ones) - 3 →
      (nm0.allocateAll users).1 =
          (List.range users.length).map
            (fun i => (nm0.offsetToIP ((i + 2 : Nat) : Int), (none : Option GoError))) ∧
        ((∀ m : Nat, 2 ≤ m → m ≤ 2 ^ (32 - cidr.ones) - 2 →
            (nm0.allocateAll users).2.allocated (nm0.offsetToIP m) ≠ none) ↔
          users.length = 2 ^ (32 - cidr.ones) - 3)) := by
  have e := New_ok hnew
  have hmax : nm0.maxHosts = (2 : Int) ^ (32 - cidr.ones) - 2 := by rw [e]
  have hcfg : nm0.cfg = cfg := by rw [e]
  have hempty : nm0.filled 0 := by
    rw [e]
    intro k
    constructor
    · intro h
      exact absurd rfl h
    · rintro ⟨i, hi, _⟩
      omega
  have hP := pow_cast_two (32 - cidr.ones)
  have hle := hostPow_le cidr
  generalize 2 ^ (32 - cidr.ones) = P at hP hle ⊢
  rw [hP] at hmax
  constructor
  · intro table idx userID
    have hx := exhausted_AllocateIP
      ({ nm0 with allocated := table, nextIdx := idx } : NetworkManager) userID
    constructor
    · intro hall
      have := hx.1 (fun m h1 h2 => hall m h1 (by
        have h3 : (m : Int) ≤ nm0.maxHosts := h2
        rw [hmax] at h3
        omega))
      rw [this]
      simp only [NetworkManager.poolError, hcfg]
    · rintro ⟨m, h1, h2, h3⟩
      apply hx.2
      intro hex
      exact hex m h1 (by
        show (m : Int) ≤ nm0.maxHosts
        rw [hmax]
        omega) h3
  · intro users hlen
    obtain ⟨r1, r2, r3, _⟩ := allocateAll_filled users nm0 0 hempty
      (by rw [hmax]; omega) (by rw [hmax]; omega)
    refine ⟨?_, ?_⟩
    · rw [r1]
      apply List.map_congr_left
      intro i _
      simp only [Nat.zero_add]
    · have hoff : ∀ o : Int, (nm0.allocateAll users).2.offsetToIP o = nm0.offsetToIP o :=
        fun o => offsetToIP_congr r3 o
      simp only [Nat.zero_add] at r2
      constructor
      · intro hall
        by_contra hne
        have hfull := hall (users.length + 2) (by omega) (by omega)
        obtain ⟨i, hi, heq⟩ := (r2 _).1 hfull
        rw [hoff] at heq
        have := offsetToIP_inj nm0 (by omega) (by omega) heq
        omega
      · intro heq m h1 h2
        apply (r2 _).2
        refine ⟨m - 2, by omega, ?_⟩
        rw [hoff]
        have : m - 2 + 2 = m := by omega
        rw [this]

/-- Witness for C3. On 10.0.1.0/30, whose only usable non-gateway offset is 2, one
allocation succeeds with 10.0.1.2 and the second is refused with the empty
address. On 10.0.1.0/24 the count `2^hostBits - 3` is 253, and the pool left by
253 allocations in a row is exhausted. -/
theorem C3_exhaustion_witness :
    NewNetworkManager config30 (Except.ok cidr30) = Except.ok nm30 ∧
    (nm30.allocateAll ["alice"]).1 = [("10.0.1.2", none)] ∧
    ((nm30.allocateAll ["alice"]).2.AllocateIP "bob").1 =
      ("", some { format := "no available IPs in subnet %s", operands := ["10.0.1.0/30"],
                  cause := none }) ∧
    ((∀ m : Nat, 2 ≤ m → m ≤ 2 ^ (32 - cidr30.ones) - 2 →
        (nm30.allocateAll ["alice"]).2.allocated (nm30.offsetToIP m) ≠ none) ↔
      ["alice"].length = 2 ^ (32 - cidr30.ones) - 3) ∧
    2 ^ (32 - cidr24.ones) - 3 = 253 ∧
    ((∀ m : Nat, 2 ≤ m → m ≤ 2 ^ (32 - cidr24.ones) - 2 →
        (nm24.allocateAll (List.replicate 253 "vm")).2.allocated (nm24.offsetToIP m) ≠ none) ↔
      (List.replicate 253 "vm").length = 2 ^ (32 - cidr24.ones) - 3) :=
  ⟨rfl, by decide, by decide,
    ((C3_exhaustion config30 cidr30 nm30 rfl).2 ["alice"] (by decide)).2,
    by decide,
    ((C3_exhaustion defaultConfig cidr24 nm24 rfl).2 (List.replicate 253 "vm")
      (by rw [List.length_replicate]; decide)).2⟩

/-- Claim C7. `ReleaseIP` is an unconditional, idempotent free: for every manager and
every string `ip`, the table afterwards has no entry at `ip`, every other entry
is as before, and the interface counter and all other fields are unchanged; if
`ip` was not in the table the manager is unchanged; releasing twice leaves the
same manager as releasing once. `ReleaseIP` has no error result. -/
theorem C7_release_idempotent (nm : NetworkManager) (ip : String) :
    (nm.ReleaseIP ip).allocated ip = none ∧
    (∀ k, k ≠ ip → (nm.ReleaseIP ip).allocated k = nm.allocated k) ∧
    (nm.ReleaseIP ip).nextIdx = nm.nextIdx ∧
    (nm.ReleaseIP ip).cfg = nm.cfg ∧ (nm.ReleaseIP ip).subnetIP = nm.subnetIP ∧
    (nm.ReleaseIP ip).subnetLen = nm.subnetLen ∧ (nm.ReleaseIP ip).maxHosts = nm.maxHosts ∧
    (nm.allocated ip = none → nm.ReleaseIP ip = nm) ∧
    (nm.ReleaseIP ip).ReleaseIP ip = nm.ReleaseIP ip := by
  refine ⟨?_, ?_, rfl, rfl, rfl, rfl, rfl, ?_, ?_⟩
  · simp [NetworkManager.ReleaseIP, Table.delete]
  · intro k hk
    simp [NetworkManager.ReleaseIP, Table.delete, hk]
  · intro hfree
    cases nm with
    | mk cfg allocated nextIdx subnetIP subnetLen maxHosts =>
      simp only [NetworkManager.ReleaseIP, NetworkManager.mk.injEq, true_and, and_true]
      funext k
      simp only [Table.delete]
      by_cases hk : k = ip
      · rw [if_pos hk, hk]
        exact hfree.symm
      · rw [if_neg hk]
  · simp only [NetworkManager.ReleaseIP, NetworkManager.mk.injEq, true_and, and_true]
    funext k
    simp only [Table.delete]
    by_cases hk : k = ip <;> simp [hk]

/-- Witness for C7: after alice takes 10.0.1.2, releasing it empties the entry, and
releasing the unknown string "nonsense" changes no entry. -/
theorem C7_release_idempotent_witness :
    (nm24.AllocateIP "alice").2.allocated "10.0.1.2" = some "alice" ∧
    ((nm24.AllocateIP "alice").2.ReleaseIP "10.0.1.2").allocated "10.0.1.2" = none ∧
    ((nm24.AllocateIP "alice").2.ReleaseIP "nonsense").allocated "10.0.1.2" = some "alice" ∧
    ((nm24.AllocateIP "alice").2.ReleaseIP "nonsense") = (nm24.AllocateIP "alice").2 :=
  ⟨by decide, by decide, by decide,
    (C7_release_idempotent (nm24.AllocateIP "alice").2 "nonsense").2.2.2.2.2.2.2.1 (by decide)⟩

/-! ## Lemmas: command loops -/

theorem runTap_log_ok (nm : NetworkManager) (h : Host) (tap : String) :
    ∀ (cmds : List (List String)) (w : World),
      (∀ r ∈ outcomes h w cmds, r.err = none) →
      (nm.runTapCommands h tap cmds w).1 = (tap, none) ∧
        (nm.runTapCommands h tap cmds w).2.log = w.log ++ cmds := by
  intro cmds
  induction cmds with
  | nil =>
    intro w _
    simp [NetworkManager.runTapCommands]
  | cons c cs ih =>
    intro w hall
    have h0 : (CombinedOutput h w c).1.err = none :=
      hall _ (by simp [outcomes])
    have hrest := ih (CombinedOutput h w c).2 (fun r hr => hall r (by simp [outcomes, hr]))
    simp only [NetworkManager.runTapCommands, h0]
    refine ⟨hrest.1, ?_⟩
    rw [hrest.2]
    simp [CombinedOutput]

theorem runTap_fail (nm : NetworkManager) (h : Host) (tap : String) :
    ∀ (cmds : List (List String)) (w : World) (k : Nat) (out e : String),
      (∀ i, i < k → ∃ r, (outcomes h w cmds)[i]? = some r ∧ r.err = none) →
      (outcomes h w cmds)[k]? = some { out := out, err := some e } →
      (nm.runTapCommands h tap cmds w).1 =
          ("", some { format := "failed to run %q: %s: %w"
                      operands := [String.intercalate " " (cmds.getD k []), out]
                      cause := some e }) ∧
        (nm.runTapCommands h tap cmds w).2.log =
          w.log ++ cmds.take (k + 1) ++ [["ip", "link", "del", tap]] := by
  intro cmds
  induction cmds with
  | nil =>
    intro w k out e _ hk
    simp [outcomes] at hk
  | cons c cs ih =>
    intro w k out e hpre hk
    cases k with
    | zero =>
      simp only [outcomes, List.getElem?_cons_zero, Option.some.injEq] at hk
      have herr : (CombinedOutput h w c).1.err = some e := by rw [hk]
      have hout : (CombinedOutput h w c).1.out = out := by rw [hk]
      simp only [NetworkManager.runTapCommands, herr, hout]
      simp [NetworkManager.DestroyTapDevice, CombinedOutput]
    | succ k =>
      have h0 : (CombinedOutput h w c).1.err = none := by
        obtain ⟨r, hr, hre⟩ := hpre 0 (Nat.succ_pos k)
        simp only [outcomes, List.getElem?_cons_zero, Option.some.injEq] at hr
        rw [hr]
        exact hre
      have hrest := ih (CombinedOutput h w c).2 k out e
        (fun i hi => by
          obtain ⟨r, hr, hre⟩ := hpre (i + 1) (by omega)
          exact ⟨r, by simpa [outcomes] using hr, hre⟩)
        (by simpa [outcomes] using hk)
      simp only [NetworkManager.runTapCommands, h0]
      refine ⟨by simpa using hrest.1, ?_⟩
      rw [hrest.2]
      simp [CombinedOutput]

theorem runSetup_ok (h : Host) :
    ∀ (rules : List (List String)) (w : World),
      (∀ r ∈ outcomes h w (rules.map (List.cons "iptables")), r.err = none) →
      (runSetupRules h rules w).1 = none ∧
        (runSetupRules h rules w).2.log = w.log ++ rules.map (List.cons "iptables") := by
  intro rules
  induction rules with
  | nil =>
    intro w _
    simp [runSetupRules]
  | cons c cs ih =>
    intro w hall
    have h0 : (CombinedOutput h w ("iptables" :: c)).1.err = none :=
      hall _ (by simp [outcomes])
    have hrest := ih (CombinedOutput h w ("iptables" :: c)).2
      (fun r hr => hall r (by simp [outcomes, hr]))
    simp only [runSetupRules, h0]
    refine ⟨hrest.1, ?_⟩
    rw [hrest.2]
    simp [CombinedOutput]

theorem runSetup_fail (h : Host) :
    ∀ (rules : List (List String)) (w : World) (k : Nat) (out e : String),
      (∀ i, i < k →
        ∃ r, (outcomes h w (rules.map (List.cons "iptables")))[i]? = some r ∧ r.err = none) →
      (outcomes h w (rules.map (List.cons "iptables")))[k]? = some { out := out, err := some e } →
      (runSetupRules h rules w).1 =
          some { format := "iptables rule %v failed: %s: %w"
                 operands := ["[" ++ String.intercalate " " (rules.getD k []) ++ "]", out]
                 cause := some e } ∧
        (runSetupRules h rules w).2.log =
          w.log ++ (rules.map (List.cons "iptables")).take (k + 1) := by
  intro rules
  induction rules with
  | nil =>
    intro w k out e _ hk
    simp [outcomes] at hk
  | cons c cs ih =>
    intro w k out e hpre hk
    cases k with
    | zero =>
      simp only [List.map_cons, outcomes, List.getElem?_cons_zero, Option.some.injEq] at hk
      have herr : (CombinedOutput h w ("iptables" :: c)).1.err = some e := by rw [hk]
      have hout : (CombinedOutput h w ("iptables" :: c)).1.out = out := by rw [hk]
      simp only [runSetupRules, herr, hout]
      simp [CombinedOutput]
    | succ k =>
      have h0 : (CombinedOutput h w ("iptables" :: c)).1.err = none := by
        obtain ⟨r, hr, hre⟩ := hpre 0 (Nat.succ_pos k)
        simp only [List.map_cons, outcomes, List.getElem?_cons_zero, Option.some.injEq] at hr
        rw [hr]
        exact hre
      have hrest := ih (CombinedOutput h w ("iptables" :: c)).2 k out e
        (fun i hi => by
          obtain ⟨r, hr, hre⟩ := hpre (i + 1) (by omega)
          exact ⟨r, by simpa [outcomes] using hr, hre⟩)
        (by simpa [outcomes] using hk)
      simp only [runSetupRules, h0]
      refine ⟨by simpa using hrest.1, ?_⟩
      rw [hrest.2]
      simp [CombinedOutput]

theorem runSetup_none (h : Host) :
    ∀ (rules : List (List String)) (w : World),
      (runSetupRules h rules w).1 = none →
      ∀ r ∈ outcomes h w (rules.map (List.cons "iptables")), r.err = none := by
  intro rules
  induction rules with
  | nil =>
    intro w _ r hr
    simp [outcomes] at hr
  | cons c cs ih =>
    intro w hnone r hr
    cases h0 : (CombinedOutput h w ("iptables" :: c)).1.err with
    | some e =>
      simp [runSetupRules, h0] at hnone
    | none =>
      simp only [runSetupRules, h0] at hnone
      simp only [List.map_cons, outcomes, List.mem_cons] at hr
      rcases hr with e | hm
      · rw [e]
        exact h0
      · exact ih _ hnone r hm

theorem runCleanup_log (h : Host) :
    ∀ (rules : List (List String)) (w : World),
      (runCleanupRules h rules w).log = w.log ++ rules.map (List.cons "iptables") := by
  intro rules
  induction rules with
  | nil =>
    intro w
    simp [runCleanupRules]
  | cons c cs ih =>
    intro w
    simp only [runCleanupRules]
    rw [ih]
    simp [CombinedOutput]

/-- Claim C4. `CreateTapDevice` over a host whose command outcomes are arbitrary: with
`tap = fc_tap<nextIdx>` and `cmds` the three creation commands in source order,
the counter is advanced; if all three commands succeed the call returns `tap`
with no error and the log grows by exactly `cmds` (no delete); if the commands
before position `k` succeed and the one at position `k` fails with output
`out`, the call returns the empty name and an error carrying `out`, and the log
grows by the first `k + 1` creation commands followed by exactly one
`ip link del tap`, whatever the delete returns. -/
theorem C4_create_tap_device (nm : NetworkManager) (h : Host) (w : World) (vmIP tap : String)
    (cmds : List (List String))
    (htap : tap = "fc_tap" ++ toString nm.nextIdx)
    (hcmds : cmds = [["ip", "tuntap", "add", "dev", tap, "mode", "tap"],
                     ["ip", "link", "set", tap, "master", nm.cfg.BridgeName],
                     ["ip", "link", "set", tap, "up"]]) :
    (nm.CreateTapDevice h w vmIP).2.1 = { nm with nextIdx := nm.nextIdx + 1 } ∧
    ((∀ r ∈ outcomes h w cmds, r.err = none) →
      (nm.CreateTapDevice h w vmIP).1 = (tap, none) ∧
        (nm.CreateTapDevice h w vmIP).2.2.log = w.log ++ cmds) ∧
    (∀ (k : Nat) (out e : String),
      (∀ i, i < k → ∃ r, (outcomes h w cmds)[i]? = some r ∧ r.err = none) →
      (outcomes h w cmds)[k]? = some { out := out, err := some e } →
      (nm.CreateTapDevice h w vmIP).1 =
          ("", some { format := "failed to run %q: %s: %w"
                      operands := [String.intercalate " " (cmds.getD k []), out]
                      cause := some e }) ∧
        (nm.CreateTapDevice h w vmIP).2.2.log =
          w.log ++ cmds.take (k + 1) ++ [["ip", "link", "del", tap]]) := by
  have hc : tapCommands nm tap = cmds := by
    rw [hcmds]
    rfl
  have ht : tapNameOf nm.nextIdx = tap := by
    rw [htap]
    rfl
  refine ⟨rfl, ?_, ?_⟩
  · intro hall
    have := runTap_log_ok nm h tap cmds w hall
    simp only [NetworkManager.CreateTapDevice, ht, hc]
    exact this
  · intro k out e hpre hk
    have := runTap_fail nm h tap cmds w k out e hpre hk
    simp only [NetworkManager.CreateTapDevice, ht, hc]
    exact this

/-- Witness for C4: with counter 1 and bridge fcbr0, a host on which attaching to the
bridge fails (and the delete fails too) makes the call run the first two
commands and one delete and return the error with the output "boom". -/
theorem C4_create_tap_device_witness :
    (outcomes (scriptedHost [["ip", "link", "set", "fc_tap1", "master", "fcbr0"],
                             ["ip", "link", "del", "fc_tap1"]]) emptyWorld
        [["ip", "tuntap", "add", "dev", "fc_tap1", "mode", "tap"],
         ["ip", "link", "set", "fc_tap1", "master", "fcbr0"],
         ["ip", "link", "set", "fc_tap1", "up"]])[1]? =
      some { out := "boom", err := some "exit status 1" } ∧
    (nm24.CreateTapDevice
        (scriptedHost [["ip", "link", "set", "fc_tap1", "master", "fcbr0"],
                       ["ip", "link", "del", "fc_tap1"]]) emptyWorld "10.0.1.2").1 =
      ("", some { format := "failed to run %q: %s: %w"
                  operands := ["ip link set fc_tap1 master fcbr0", "boom"]
                  cause := some "exit status 1" }) ∧
    (nm24.CreateTapDevice
        (scriptedHost [["ip", "link", "set", "fc_tap1", "master", "fcbr0"],
                       ["ip", "link", "del", "fc_tap1"]]) emptyWorld "10.0.1.2").2.2.log =
      [["ip", "tuntap", "add", "dev", "fc_tap1", "mode", "tap"],
       ["ip", "link", "set", "fc_tap1", "master", "fcbr0"],
       ["ip", "link", "del", "fc_tap1"]] ∧
    (nm24.CreateTapDevice (scriptedHost []) emptyWorld "10.0.1.2").1 = ("fc_tap1", none) :=
  ⟨by decide,
    ((C4_create_tap_device nm24
      (scriptedHost [["ip", "link", "set", "fc_tap1", "master", "fcbr0"],
                     ["ip", "link", "del", "fc_tap1"]]) emptyWorld "10.0.1.2" "fc_tap1"
      [["ip", "tuntap", "add", "dev", "fc_tap1", "mode", "tap"],
       ["ip", "link", "set", "fc_tap1", "master", "fcbr0"],
       ["ip", "link", "set", "fc_tap1", "up"]] (by decide) (by decide)).2.2 1 "boom"
        "exit status 1" (by decide) (by decide)).1,
    by decide, by decide⟩

/-- Order and failure handling of `SetupVMIsolation`, over a host whose command
outcomes are arbitrary: `cmds` are the five iptables invocations in source
order, the four `ACCEPT` rules before the one `DROP` rule, whose only matches
are source `vmIP` and destination `VMSubnet`. If all five
succeed the call returns no error and the log grows by exactly `cmds`; it
returns no error only then. If the installs before position `k` succeed and
the one at position `k` fails with output `out`, the call returns an error
carrying `out` and the log grows by the first `k + 1` installs only: no later
install and no delete is run. -/
theorem setup_order_and_failure (nm : NetworkManager) (h : Host) (w : World) (vmIP : String)
    (cmds : List (List String))
    (hcmds : cmds =
      [["iptables", "-A", "FORWARD", "-s", vmIP, "-d", nm.cfg.GatewayIP, "-j", "ACCEPT"],
       ["iptables", "-A", "FORWARD", "-s", vmIP, "!", "-d", nm.cfg.VMSubnet, "-j", "ACCEPT"],
       ["iptables", "-A", "FORWARD", "-d", vmIP, "-m", "state", "--state",
        "ESTABLISHED,RELATED", "-j", "ACCEPT"],
       ["iptables", "-A", "FORWARD", "-s", nm.cfg.GatewayIP, "-d", vmIP, "-j", "ACCEPT"],
       ["iptables", "-A", "FORWARD", "-s", vmIP, "-d", nm.cfg.VMSubnet, "-j", "DROP"]]) :
    ((∀ r ∈ outcomes h w cmds, r.err = none) →
      (nm.SetupVMIsolation h w vmIP).1 = none ∧
        (nm.SetupVMIsolation h w vmIP).2.log = w.log ++ cmds) ∧
    ((nm.SetupVMIsolation h w vmIP).1 = none → ∀ r ∈ outcomes h w cmds, r.err = none) ∧
    (∀ (k : Nat) (out e : String),
      (∀ i, i < k → ∃ r, (outcomes h w cmds)[i]? = some r ∧ r.err = none) →
      (outcomes h w cmds)[k]? = some { out := out, err := some e } →
      (nm.SetupVMIsolation h w vmIP).1 =
          some { format := "iptables rule %v failed: %s: %w"
                 operands := ["[" ++ String.intercalate " " ((cmds.getD k []).tail) ++ "]", out]
                 cause := some e } ∧
        (nm.SetupVMIsolation h w vmIP).2.log = w.log ++ cmds.take (k + 1)) := by
  have hc : (setupRules nm vmIP).map (List.cons "iptables") = cmds := by
    rw [hcmds]
    rfl
  refine ⟨?_, ?_, ?_⟩
  · intro hall
    rw [← hc] at hall ⊢
    exact runSetup_ok h _ w hall
  · intro hnone
    rw [← hc]
    exact runSetup_none h _ w hnone
  · intro k out e hpre hk
    rw [← hc] at hpre hk ⊢
    have := runSetup_fail h (setupRules nm vmIP) w k out e hpre hk
    refine ⟨?_, this.2⟩
    show (runSetupRules h (setupRules nm vmIP) w).1 = _
    rw [this.1]
    have hget : (List.map (List.cons "iptables") (setupRules nm vmIP)).getD k [] =
        "iptables" :: (setupRules nm vmIP).getD k [] ∨ (setupRules nm vmIP).length ≤ k := by
      by_cases hlt : k < (setupRules nm vmIP).length
      · left
        simp [List.getD_eq_getElem?_getD, List.getElem?_map, List.getElem?_eq_getElem hlt]
      · right
        omega
    rcases hget with hg | hge
    · rw [hg]
      rfl
    · have : (outcomes h w (List.map (List.cons "iptables") (setupRules nm vmIP))).length ≤ k := by
        simpa [setupRules, outcomes] using hge
      rw [List.getElem?_eq_none this] at hk
      exact absurd hk (by simp)

/-- An instance of `setup_order_and_failure`: for the VM 10.0.1.2 under the default
configuration, a host on which the third install (established/related) fails. The call returns the
error with the output "boom" and the log holds the first three installs only. -/
theorem setup_order_and_failure_example :
    (outcomes
        (scriptedHost [["iptables", "-A", "FORWARD", "-d", "10.0.1.2", "-m", "state", "--state",
                        "ESTABLISHED,RELATED", "-j", "ACCEPT"]]) emptyWorld
        [["iptables", "-A", "FORWARD", "-s", "10.0.1.2", "-d", "10.0.1.1", "-j", "ACCEPT"],
         ["iptables", "-A", "FORWARD", "-s", "10.0.1.2", "!", "-d", "10.0.1.0/24", "-j", "ACCEPT"],
         ["iptables", "-A", "FORWARD", "-d", "10.0.1.2", "-m", "state", "--state",
          "ESTABLISHED,RELATED", "-j", "ACCEPT"],
         ["iptables", "-A", "FORWARD", "-s", "10.0.1.1", "-d", "10.0.1.2", "-j", "ACCEPT"],
         ["iptables", "-A", "FORWARD", "-s", "10.0.1.2", "-d", "10.0.1.0/24", "-j", "DROP"]])[2]? =
      some { out := "boom", err := some "exit status 1" } ∧
    (nm24.SetupVMIsolation
        (scriptedHost [["iptables", "-A", "FORWARD", "-d", "10.0.1.2", "-m", "state", "--state",
                        "ESTABLISHED,RELATED", "-j", "ACCEPT"]]) emptyWorld "10.0.1.2").1 =
      some { format := "iptables rule %v failed: %s: %w"
             operands := ["[-A FORWARD -d 10.0.1.2 -m state --state ESTABLISHED,RELATED -j ACCEPT]",
                          "boom"]
             cause := some "exit status 1" } ∧
    (nm24.SetupVMIsolation
        (scriptedHost [["iptables", "-A", "FORWARD", "-d", "10.0.1.2", "-m", "state", "--state",
                        "ESTABLISHED,RELATED", "-j", "ACCEPT"]]) emptyWorld "10.0.1.2").2.log =
      [["iptables", "-A", "FORWARD", "-s", "10.0.1.2", "-d", "10.0.1.1", "-j", "ACCEPT"],
       ["iptables", "-A", "FORWARD", "-s", "10.0.1.2", "!", "-d", "10.0.1.0/24", "-j", "ACCEPT"],
       ["iptables", "-A", "FORWARD", "-d", "10.0.1.2", "-m", "state", "--state",
        "ESTABLISHED,RELATED", "-j", "ACCEPT"]] ∧
    (nm24.SetupVMIsolation (scriptedHost []) emptyWorld "10.0.1.2").1 = none :=
  ⟨by decide,
    ((setup_order_and_failure nm24
      (scriptedHost [["iptables", "-A", "FORWARD", "-d", "10.0.1.2", "-m", "state", "--state",
                      "ESTABLISHED,RELATED", "-j", "ACCEPT"]]) emptyWorld "10.0.1.2"
      [["iptables", "-A", "FORWARD", "-s", "10.0.1.2", "-d", "10.0.1.1", "-j", "ACCEPT"],
       ["iptables", "-A", "FORWARD", "-s", "10.0.1.2", "!", "-d", "10.0.1.0/24", "-j", "ACCEPT"],
       ["iptables", "-A", "FORWARD", "-d", "10.0.1.2", "-m", "state", "--state",
        "ESTABLISHED,RELATED", "-j", "ACCEPT"],
       ["iptables", "-A", "FORWARD", "-s", "10.0.1.1", "-d", "10.0.1.2", "-j", "ACCEPT"],
       ["iptables", "-A", "FORWARD", "-s", "10.0.1.2", "-d", "10.0.1.0/24", "-j", "DROP"]]
      (by decide)).2.2 2 "boom" "exit status 1" (by decide) (by decide)).1,
    by decide, by decide⟩

/-- Claim C5 does not hold of the code: rule (e) drops one direction only. For the VM
10.0.1.2 under the default configuration, on a host where every install
succeeds, `SetupVMIsolation` returns no error and installs the five vectors of
the source in order. The only vector with target `DROP` matches source
10.0.1.2; a packet from 10.0.1.2 to 10.0.1.3 is dropped by it, but a packet
opening a connection from 10.0.1.3 to 10.0.1.2 matches none of the five
vectors, so nothing installed drops traffic from the rest of the subnet to the
VM. (Return traffic to the VM and traffic from the VM to the outside are
accepted, as rules (c) and (b) say.) -/
theorem C5_drop_rule_is_one_way :
    (nm24.SetupVMIsolation (scriptedHost []) emptyWorld "10.0.1.2").1 = none ∧
    (nm24.SetupVMIsolation (scriptedHost []) emptyWorld "10.0.1.2").2.log =
      [["iptables", "-A", "FORWARD", "-s", "10.0.1.2", "-d", "10.0.1.1", "-j", "ACCEPT"],
       ["iptables", "-A", "FORWARD", "-s", "10.0.1.2", "!", "-d", "10.0.1.0/24", "-j", "ACCEPT"],
       ["iptables", "-A", "FORWARD", "-d", "10.0.1.2", "-m", "state", "--state",
        "ESTABLISHED,RELATED", "-j", "ACCEPT"],
       ["iptables", "-A", "FORWARD", "-s", "10.0.1.1", "-d", "10.0.1.2", "-j", "ACCEPT"],
       ["iptables", "-A", "FORWARD", "-s", "10.0.1.2", "-d", "10.0.1.0/24", "-j", "DROP"]] ∧
    (nm24.SetupVMIsolation (scriptedHost []) emptyWorld "10.0.1.2").2.log.filter
        (fun r => r.getLast? = some "DROP") =
      [["iptables", "-A", "FORWARD", "-s", "10.0.1.2", "-d", "10.0.1.0/24", "-j", "DROP"]] ∧
    verdict "10.0.1.0/24"
        { src := "10.0.1.2", srcInSubnet := true, dst := "10.0.1.3", dstInSubnet := true,
          established := false }
        (nm24.SetupVMIsolation (scriptedHost []) emptyWorld "10.0.1.2").2.log = some "DROP" ∧
    verdict "10.0.1.0/24"
        { src := "10.0.1.3", srcInSubnet := true, dst := "10.0.1.2", dstInSubnet := true,
          established := false }
        (nm24.SetupVMIsolation (scriptedHost []) emptyWorld "10.0.1.2").2.log = none ∧
    verdict "10.0.1.0/24"
        { src := "10.0.1.3", srcInSubnet := true, dst := "10.0.1.2", dstInSubnet := true,
          established := true }
        (nm24.SetupVMIsolation (scriptedHost []) emptyWorld "10.0.1.2").2.log = some "ACCEPT" ∧
    verdict "10.0.1.0/24"
        { src := "10.0.1.2", srcInSubnet := true, dst := "93.184.216.34", dstInSubnet := false,
          established := false }
        (nm24.SetupVMIsolation (scriptedHost []) emptyWorld "10.0.1.2").2.log = some "ACCEPT" ∧
    (nm24.SetupVMIsolation (scriptedHost []) emptyWorld "10.0.1.2").2.log.filter
        (fun r =>
          ruleMatches "10.0.1.0/24"
            { src := "10.0.1.3", srcInSubnet := true, dst := "10.0.1.2", dstInSubnet := true,
              established := false } false r) = [] := by
  refine ⟨by decide, by decide, by decide, by decide, by decide, by decide, by decide,
    by decide⟩

/-- Claim C6. `CleanupVMIsolation` mirrors `SetupVMIsolation`: its rules are the rules
of the setup, in the same order, each with its leading `-A` replaced by `-D`;
on every host and in every world it runs all five deletes, whatever each one
returns, and nothing else; so the commands it issues are the commands a fully
successful setup issues with `-A` turned into `-D`. It has no error result. -/
theorem C6_cleanup_mirrors_setup (nm : NetworkManager) (vmIP : String) :
    (∀ r ∈ setupRules nm vmIP, r.head? = some "-A") ∧
    cleanupRules nm vmIP = (setupRules nm vmIP).map (fun r => "-D" :: r.tail) ∧
    (∀ (h : Host) (w : World),
      (nm.CleanupVMIsolation h w vmIP).log =
        w.log ++
          [["iptables", "-D", "FORWARD", "-s", vmIP, "-d", nm.cfg.GatewayIP, "-j", "ACCEPT"],
           ["iptables", "-D", "FORWARD", "-s", vmIP, "!", "-d", nm.cfg.VMSubnet, "-j", "ACCEPT"],
           ["iptables", "-D", "FORWARD", "-d", vmIP, "-m", "state", "--state",
            "ESTABLISHED,RELATED", "-j", "ACCEPT"],
           ["iptables", "-D", "FORWARD", "-s", nm.cfg.GatewayIP, "-d", vmIP, "-j", "ACCEPT"],
           ["iptables", "-D", "FORWARD", "-s", vmIP, "-d", nm.cfg.VMSubnet, "-j", "DROP"]]) ∧
    (∀ (h₁ h₂ : Host) (w₁ w₂ : World), (nm.SetupVMIsolation h₁ w₁ vmIP).1 = none →
      issued w₂ (nm.CleanupVMIsolation h₂ w₂ vmIP) =
        (issued w₁ (nm.SetupVMIsolation h₁ w₁ vmIP).2).map appendToDelete) := by
  refine ⟨?_, rfl, ?_, ?_⟩
  · intro r hr
    simp only [setupRules, List.mem_cons, List.mem_singleton, List.not_mem_nil, or_false] at hr
    rcases hr with e | e | e | e | e <;> rw [e] <;> rfl
  · intro h w
    rw [NetworkManager.CleanupVMIsolation, runCleanup_log]
    rfl
  · intro h₁ h₂ w₁ w₂ hok
    have hall := runSetup_none h₁ _ w₁ hok
    have hlog := (runSetup_ok h₁ (setupRules nm vmIP) w₁ hall).2
    have hclean := runCleanup_log h₂ (cleanupRules nm vmIP) w₂
    simp only [issued, NetworkManager.CleanupVMIsolation, NetworkManager.SetupVMIsolation,
      hlog, hclean, List.drop_left]
    simp [setupRules, cleanupRules, appendToDelete]

/-- Witness for C6: for the VM 10.0.1.2 under the default configuration, on a host
where the first and the last delete fail, all five deletes are still run. -/
theorem C6_cleanup_mirrors_setup_witness :
    (nm24.CleanupVMIsolation
        (scriptedHost
          [["iptables", "-D", "FORWARD", "-s", "10.0.1.2", "-d", "10.0.1.1", "-j", "ACCEPT"],
           ["iptables", "-D", "FORWARD", "-s", "10.0.1.2", "-d", "10.0.1.0/24", "-j", "DROP"]])
        emptyWorld "10.0.1.2").log =
      [["iptables", "-D", "FORWARD", "-s", "10.0.1.2", "-d", "10.0.1.1", "-j", "ACCEPT"],
       ["iptables", "-D", "FORWARD", "-s", "10.0.1.2", "!", "-d", "10.0.1.0/24", "-j", "ACCEPT"],
       ["iptables", "-D", "FORWARD", "-d", "10.0.1.2", "-m", "state", "--state",
        "ESTABLISHED,RELATED", "-j", "ACCEPT"],
       ["iptables", "-D", "FORWARD", "-s", "10.0.1.1", "-d", "10.0.1.2", "-j", "ACCEPT"],
       ["iptables", "-D", "FORWARD", "-s", "10.0.1.2", "-d", "10.0.1.0/24", "-j", "DROP"]] ∧
    issued emptyWorld (nm24.CleanupVMIsolation (scriptedHost []) emptyWorld "10.0.1.2") =
      (issued emptyWorld (nm24.SetupVMIsolation (scriptedHost []) emptyWorld "10.0.1.2").2).map
        appendToDelete :=
  ⟨(C6_cleanup_mirrors_setup nm24 "10.0.1.2").2.2.1 _ emptyWorld,
    (C6_cleanup_mirrors_setup nm24 "10.0.1.2").2.2.2 (scriptedHost []) (scriptedHost [])
      emptyWorld emptyWorld (by decide)⟩

/-! ## Lemmas: paths -/

theorem splitSlash_ne_nil (p : List Char) : splitSlash p ≠ [] := by
  cases p with
  | nil => simp [splitSlash]
  | cons c cs =>
    simp only [splitSlash]
    split_ifs
    · simp
    · split <;> simp

theorem splitSlash_append (a b : List Char) :
    splitSlash (a ++ '/' :: b) = splitSlash a ++ splitSlash b := by
  induction a with
  | nil => simp [splitSlash]
  | cons c cs ih =>
    by_cases hc : c = '/'
    · simp [splitSlash, hc, ih]
    · cases hs : splitSlash cs with
      | nil => exact absurd hs (splitSlash_ne_nil cs)
      | cons x xs => simp [splitSlash, hc, ih, hs]

theorem splitSlash_noSlash (x : List Char) (h : '/' ∉ x) : splitSlash x = [x] := by
  induction x with
  | nil => rfl
  | cons c cs ih =>
    have hc : c ≠ '/' := fun e => h (by simp [e])
    have := ih (fun hm => h (List.mem_cons_of_mem _ hm))
    simp [splitSlash, hc, this]

theorem mem_splitSlash (p : List Char) : ∀ e ∈ splitSlash p, '/' ∉ e := by
  induction p with
  | nil => simp [splitSlash]
  | cons c cs ih =>
    intro e he
    by_cases hc : c = '/'
    · simp only [splitSlash, hc, if_true, List.mem_cons] at he
      rcases he with rfl | he
      · simp
      · exact ih e he
    · cases hs : splitSlash cs with
      | nil => exact absurd hs (splitSlash_ne_nil cs)
      | cons x xs =>
        simp only [splitSlash, hc, if_false, hs, List.mem_cons] at he
        rcases he with rfl | he
        · have hx := ih x (by simp [hs])
          intro hm
          rcases List.mem_cons.mp hm with e1 | e2
          · exact hc e1.symm
          · exact hx e2
        · exact ih e (by simp [hs, he])

theorem splitSlash_joinSlash (l : List (List Char)) (hne : l ≠ [])
    (h : ∀ e ∈ l, '/' ∉ e) : splitSlash (joinSlash l) = l := by
  induction l with
  | nil => exact absurd rfl hne
  | cons x rest ih =>
    cases rest with
    | nil =>
      simp only [joinSlash]
      exact splitSlash_noSlash x (h x (by simp))
    | cons y rest =>
      simp only [joinSlash]
      rw [splitSlash_append, splitSlash_noSlash x (h x (by simp)),
        ih (by simp) (fun e he => h e (List.mem_cons_of_mem _ he))]
      rfl

theorem head_joinSlash (x : List Char) (rest : List (List Char)) (hx : x ≠ []) :
    (joinSlash (x :: rest)).head? = x.head? := by
  cases x with
  | nil => exact absurd rfl hx
  | cons c cs =>
    cases rest with
    | nil => rfl
    | cons y ys => rfl

theorem cleanStep_plain (r : Bool) (s : List (List Char)) (e : List Char) (he : Plain e) :
    cleanStep r s e = e :: s := by
  obtain ⟨h1, h2, h3, _⟩ := he
  simp [cleanStep, h1, h2, h3]

theorem foldl_plain (r : Bool) (l : List (List Char)) :
    ∀ s, (∀ e ∈ l, Plain e) → l.foldl (cleanStep r) s = l.reverse ++ s := by
  induction l with
  | nil => intro s _; rfl
  | cons x xs ih =>
    intro s h
    rw [List.foldl_cons, cleanStep_plain r s x (h x (by simp)),
      ih _ (fun e he => h e (List.mem_cons_of_mem _ he))]
    simp

theorem foldl_dotdots (k : Nat) :
    ∀ j, (List.replicate k ['.', '.']).foldl (cleanStep false) (List.replicate j ['.', '.']) =
      List.replicate (k + j) ['.', '.'] := by
  induction k with
  | zero => intro j; simp
  | succ k ih =>
    intro j
    rw [List.replicate_succ, List.foldl_cons]
    have hstep : cleanStep false (List.replicate j ['.', '.']) ['.', '.'] =
        List.replicate (j + 1) ['.', '.'] := by
      cases j with
      | zero => simp [cleanStep]
      | succ j => simp [cleanStep, List.replicate_succ]
    rw [hstep, ih (j + 1)]
    congr 1
    omega

theorem canon_refold (r : Bool) (s : List (List Char)) (h : Canon r s) :
    s.reverse.foldl (cleanStep r) [] = s := by
  obtain ⟨plain, k, hs, hp, hk⟩ := h
  subst hs
  rw [List.reverse_append, List.reverse_replicate, List.foldl_append]
  have h1 : (List.replicate k ['.', '.']).foldl (cleanStep r) [] =
      List.replicate k ['.', '.'] := by
    cases r with
    | true =>
      rw [hk rfl]
      rfl
    | false =>
      have := foldl_dotdots k 0
      simpa using this
  rw [h1, foldl_plain r _ _ (fun e he => hp e (List.mem_reverse.mp he))]
  simp

theorem canon_elems (r : Bool) (s : List (List Char)) (h : Canon r s) :
    ∀ e ∈ s, e ≠ [] ∧ '/' ∉ e := by
  obtain ⟨plain, k, hs, hp, _⟩ := h
  subst hs
  intro e he
  rcases List.mem_append.mp he with h1 | h2
  · exact ⟨(hp e h1).1, (hp e h1).2.2.2⟩
  · rw [List.eq_of_mem_replicate h2]
    exact ⟨by simp, by decide⟩

theorem cleanStep_canon (r : Bool) (s : List (List Char)) (e : List Char)
    (he : '/' ∉ e) (h : Canon r s) : Canon r (cleanStep r s e) := by
  by_cases h1 : e = [] ∨ e = ['.']
  · simp only [cleanStep, h1, if_true]
    exact h
  · by_cases h2 : e = ['.', '.']
    · obtain ⟨plain, k, hs, hp, hk⟩ := h
      subst hs
      subst h2
      cases plain with
      | cons x xs =>
        have hx : x ≠ ['.', '.'] := (hp x (by simp)).2.2.1
        simp only [cleanStep, List.cons_append, hx, if_false]
        simp only [List.cons.injEq, List.cons_ne_self, and_false, or_self, if_false, if_true]
        exact ⟨xs, k, rfl, fun e he => hp e (List.mem_cons_of_mem _ he), hk⟩
      | nil =>
        cases k with
        | zero =>
          cases r with
          | true =>
            simp only [cleanStep]
            exact ⟨[], 0, by simp, by simp, fun _ => rfl⟩
          | false =>
            simp only [cleanStep]
            exact ⟨[], 1, by simp, by simp, by simp⟩
        | succ k =>
          cases r with
          | true => exact absurd (hk rfl) (by simp)
          | false =>
            simp only [cleanStep, List.nil_append, List.replicate_succ]
            exact ⟨[], k + 2, by simp [List.replicate_succ], by simp, by simp⟩
    · have hp : Plain e := by
        refine ⟨fun a => h1 (Or.inl a), fun a => h1 (Or.inr a), h2, he⟩
      rw [cleanStep_plain r s e hp]
      obtain ⟨plain, k, hs, hpl, hk⟩ := h
      subst hs
      exact ⟨e :: plain, k, rfl, fun x hx => by
        rcases List.mem_cons.mp hx with rfl | hm
        · exact hp
        · exact hpl x hm, hk⟩

theorem foldl_canon (r : Bool) (l : List (List Char)) :
    ∀ s, (∀ e ∈ l, '/' ∉ e) → Canon r s → Canon r (l.foldl (cleanStep r) s) := by
  induction l with
  | nil => intro s _ h; exact h
  | cons x xs ih =>
    intro s hl h
    rw [List.foldl_cons]
    exact ih _ (fun e he => hl e (List.mem_cons_of_mem _ he))
      (cleanStep_canon r s x (hl x (by simp)) h)

theorem canon_nil (r : Bool) : Canon r [] :=
  ⟨[], 0, by simp, by simp, fun _ => rfl⟩

theorem cleanElems_canon (p : List Char) :
    Canon (isRooted p) ((splitSlash p).foldl (cleanStep (isRooted p)) []) :=
  foldl_canon _ _ _ (mem_splitSlash p) (canon_nil _)

theorem cleanElems_eq_reverse (p : List Char) :
    cleanElems p = ((splitSlash p).foldl (cleanStep (isRooted p)) []).reverse := rfl

theorem cleanElems_refold (p : List Char) :
    (cleanElems p).foldl (cleanStep (isRooted p)) [] = (cleanElems p).reverse := by
  rw [cleanElems_eq_reverse, List.reverse_reverse]
  exact canon_refold _ _ (cleanElems_canon p)

theorem cleanElems_elems (p : List Char) : ∀ e ∈ cleanElems p, e ≠ [] ∧ '/' ∉ e := by
  intro e he
  rw [cleanElems_eq_reverse] at he
  exact canon_elems _ _ (cleanElems_canon p) e (List.mem_reverse.mp he)

theorem isRooted_noSlash (x : List Char) (h : '/' ∉ x) : isRooted x = false := by
  cases x with
  | nil => rfl
  | cons c cs =>
    have hc : c ≠ '/' := fun e => h (by simp [e])
    simp [isRooted, hc]

/-- Cleaning a cleaned path changes neither its elements nor whether it is rooted. -/
theorem cleanChars_idem (p : List Char) :
    cleanElems (cleanChars p) = cleanElems p ∧ isRooted (cleanChars p) = isRooted p := by
  by_cases hp : p = []
  · subst hp
    exact ⟨by decide, by decide⟩
  · have hre := cleanElems_refold p
    have hel := cleanElems_elems p
    cases hr : isRooted p with
    | true =>
      rw [hr] at hre
      have hc : cleanChars p = '/' :: joinSlash (cleanElems p) := by
        simp [cleanChars, hp, hr]
      rw [hc]
      refine ⟨?_, rfl⟩
      have hroot : isRooted ('/' :: joinSlash (cleanElems p)) = true := rfl
      rw [cleanElems_eq_reverse ('/' :: joinSlash (cleanElems p)), hroot]
      by_cases hl : cleanElems p = []
      · rw [hl]
        decide
      · have hs : splitSlash ('/' :: joinSlash (cleanElems p)) = [] :: cleanElems p := by
          simp only [splitSlash, if_true]
          rw [splitSlash_joinSlash _ hl (fun e he => (hel e he).2)]
        rw [hs, List.foldl_cons]
        have h0 : cleanStep true [] [] = [] := by simp [cleanStep]
        rw [h0, hre, List.reverse_reverse]
    | false =>
      rw [hr] at hre
      by_cases hl : cleanElems p = []
      · have hc : cleanChars p = ['.'] := by
          simp [cleanChars, hp, hr, hl]
        rw [hc, hl]
        exact ⟨by decide, by decide⟩
      · have hc : cleanChars p = joinSlash (cleanElems p) := by
          simp [cleanChars, hp, hr, hl]
        rw [hc]
        have hroot : isRooted (joinSlash (cleanElems p)) = false := by
          cases hce : cleanElems p with
          | nil => exact absurd hce hl
          | cons x rest =>
            have hx := hel x (by simp [hce])
            have := head_joinSlash x rest hx.1
            have hx2 := isRooted_noSlash x hx.2
            simp only [isRooted] at hx2 ⊢
            rw [this]
            exact hx2
        refine ⟨?_, hroot⟩
        rw [cleanElems_eq_reverse (joinSlash (cleanElems p)), hroot,
          splitSlash_joinSlash _ hl (fun e he => (hel e he).2), hre, List.reverse_reverse]

theorem cleanElems_push (a b : List Char) (ha : a ≠ []) (hb : Plain b) :
    cleanElems (a ++ '/' :: b) = cleanElems a ++ [b] ∧
      isRooted (a ++ '/' :: b) = isRooted a := by
  have hroot : isRooted (a ++ '/' :: b) = isRooted a := by
    cases a with
    | nil => exact absurd rfl ha
    | cons c cs => rfl
  refine ⟨?_, hroot⟩
  rw [cleanElems_eq_reverse, cleanElems_eq_reverse, hroot, splitSlash_append,
    splitSlash_noSlash b hb.2.2.2, List.foldl_append]
  simp only [List.foldl_cons, List.foldl_nil]
  rw [cleanStep_plain _ _ b hb]
  simp

theorem cleanElems_plain (b : List Char) (hb : Plain b) :
    cleanElems b = [b] ∧ isRooted b = false := by
  have hroot := isRooted_noSlash b hb.2.2.2
  refine ⟨?_, hroot⟩
  rw [cleanElems_eq_reverse, hroot, splitSlash_noSlash b hb.2.2.2]
  simp only [List.foldl_cons, List.foldl_nil]
  rw [cleanStep_plain _ _ b hb]
  rfl

theorem data_ne_nil {s : String} (h : s ≠ "") : s.data ≠ [] := by
  intro hd
  apply h
  cases s with
  | mk d =>
    simp only at hd
    rw [hd]

/-- The elements of `filepath.Join(a, b)` for a plain element `b`: those of `a`,
then `b`. -/
theorem Join_plain (a b : String) (hb : Plain b.data) :
    cleanElems (Join a b).data = cleanElems a.data ++ [b.data] ∧
      isRooted (Join a b).data = isRooted a.data := by
  by_cases ha : a = ""
  · subst ha
    have hbne : b ≠ "" := by
      intro e
      rw [e] at hb
      exact hb.1 rfl
    have hj : Join "" b = Clean b := by
      simp [Join, hbne]
    rw [hj]
    have hi := cleanChars_idem b.data
    have hpl := cleanElems_plain b.data hb
    simp only [Clean]
    rw [hi.1, hi.2, hpl.1, hpl.2]
    exact ⟨rfl, rfl⟩
  · have hj : Join a b = Clean (String.mk (a.data ++ '/' :: b.data)) := by
      simp [Join, ha]
    rw [hj]
    have hi := cleanChars_idem (a.data ++ '/' :: b.data)
    have hpu := cleanElems_push a.data b.data (data_ne_nil ha) hb
    simp only [Clean]
    rw [hi.1, hi.2, hpu.1, hpu.2]
    exact ⟨rfl, rfl⟩

/-! ## Lemmas: storage -/

theorem plainElement_iff (s : String) : plainElement s = true ↔ Plain s.data := by
  simp [plainElement, Plain, and_assoc]

theorem underDir_iff (d p : String) :
    underDir d p = true ↔
      isRooted d.data = isRooted p.data ∧ cleanElems d.data <+: cleanElems p.data ∧
        ['.', '.'] ∉ (cleanElems p.data).drop (cleanElems d.data).length := by
  simp [underDir, and_assoc]

theorem RemoveAll_frame (h : Host) (fs : FS) (path p : String) (hp : underDir path p = false) :
    (RemoveAll h fs path).2 p = fs p := by
  unfold RemoveAll
  split_ifs
  · rfl
  · rfl
  · split
    · simp [hp]
    · simp [hp]

theorem plain_rootfs : Plain "rootfs.ext4".data := by
  refine ⟨by decide, by decide, by decide, by decide⟩

theorem plain_data : Plain "data.ext4".data := by
  refine ⟨by decide, by decide, by decide, by decide⟩

theorem not_under_sibling (sm : StorageManager) (u v : String) (hu : Plain u.data)
    (hv : Plain v.data) (huv : u ≠ v) (rest : List (List Char)) (p : String)
    (hp : cleanElems p.data = cleanElems (sm.userDir v).data ++ rest) :
    underDir (sm.userDir u) p = false := by
  have hju := Join_plain sm.cfg.VMDataDir u hu
  have hjv := Join_plain sm.cfg.VMDataDir v hv
  by_contra hcon
  have hun : underDir (sm.userDir u) p = true := by
    cases hb : underDir (sm.userDir u) p with
    | true => rfl
    | false => exact absurd hb hcon
  obtain ⟨_, hpre, _⟩ := (underDir_iff _ _).1 hun
  rw [hp] at hpre
  simp only [StorageManager.userDir] at hpre
  rw [hju.1, hjv.1, List.append_assoc, List.prefix_append_right_inj] at hpre
  simp only [List.singleton_append, List.cons_prefix_cons] at hpre
  exact huv (String.ext hpre.1)

/-- Claim C10, amended. Per-user storage isolation for user IDs that are single plain
path elements (not empty, not `.`, not `..`, no `/`): for every configuration
and distinct such `u` and `v`, the directory `CleanupStorage u` removes lies
strictly inside `VMDataDir`, is not the directory of `v` and does not contain
it, nor the paths of the images of `v`; so on every host and in every world
`CleanupStorage u` leaves what is at the rootfs and data paths of `v` as it
was, whether it reports an error or not. -/
theorem C10_storage_isolation_plain_ids (sm : StorageManager) (u v : String)
    (hu : plainElement u = true) (hv : plainElement v = true) (huv : u ≠ v) :
    sm.apart u v = true ∧
    underDir (sm.userDir u) (sm.rootfsPath v) = false ∧
    underDir (sm.userDir u) (sm.dataPath v) = false ∧
    (∀ (h : Host) (w : World),
      (sm.CleanupStorage h w u).2.fs (sm.rootfsPath v) = w.fs (sm.rootfsPath v) ∧
        (sm.CleanupStorage h w u).2.fs (sm.dataPath v) = w.fs (sm.dataPath v)) := by
  have hu' := (plainElement_iff u).1 hu
  have hv' := (plainElement_iff v).1 hv
  have hju := Join_plain sm.cfg.VMDataDir u hu'
  have hjv := Join_plain sm.cfg.VMDataDir v hv'
  have hdir : underDir (sm.userDir u) (sm.userDir v) = false :=
    not_under_sibling sm u v hu' hv' huv [] _ (by simp)
  have hroot : underDir (sm.userDir u) (sm.rootfsPath v) = false :=
    not_under_sibling sm u v hu' hv' huv ["rootfs.ext4".data] _
      (Join_plain (sm.userDir v) "rootfs.ext4" plain_rootfs).1
  have hdata : underDir (sm.userDir u) (sm.dataPath v) = false :=
    not_under_sibling sm u v hu' hv' huv ["data.ext4".data] _
      (Join_plain (sm.userDir v) "data.ext4" plain_data).1
  have hne : sm.userDir u ≠ sm.userDir v := by
    intro e
    have h1 := hju.1
    have h2 := hjv.1
    simp only [StorageManager.userDir] at e
    rw [e, h2] at h1
    exact huv (String.ext (by simpa using h1.symm))
  have hin : strictlyInside sm.cfg.VMDataDir (sm.userDir u) = true := by
    have hun : underDir sm.cfg.VMDataDir (sm.userDir u) = true := by
      rw [underDir_iff]
      simp only [StorageManager.userDir]
      rw [hju.1, hju.2]
      refine ⟨rfl, List.prefix_append _ _, ?_⟩
      rw [List.drop_left]
      simp only [List.mem_singleton]
      exact fun e => hu'.2.2.1 e.symm
    have hlen : (cleanElems sm.cfg.VMDataDir.data).length <
        (cleanElems (sm.userDir u).data).length := by
      simp only [StorageManager.userDir]
      rw [hju.1]
      simp
    simp [strictlyInside, hun, hlen]
  refine ⟨by simp [StorageManager.apart, hin, hne, hdir], hroot, hdata, ?_⟩
  intro h w
  have key : ∀ p, underDir (sm.userDir u) p = false → (sm.CleanupStorage h w u).2.fs p = w.fs p := by
    intro p hp
    have := RemoveAll_frame h w.fs (sm.userDir u) p hp
    unfold StorageManager.CleanupStorage
    split <;> exact this
  exact ⟨key _ hroot, key _ hdata⟩

/-- Witness for the amended C10: alice and bob under the default configuration;
removing the storage of bob from a world that holds the images of alice
leaves them in place. -/
theorem C10_storage_isolation_plain_ids_witness :
    (NewStorageManager defaultConfig).userDir "bob" = "/var/lib/firecracker/vms/bob" ∧
    (NewStorageManager defaultConfig).rootfsPath "alice" =
      "/var/lib/firecracker/vms/alice/rootfs.ext4" ∧
    (NewStorageManager defaultConfig).apart "bob" "alice" = true ∧
    ((NewStorageManager defaultConfig).CleanupStorage (scriptedHost []) aliceWorld "bob").2.fs
      ((NewStorageManager defaultConfig).rootfsPath "alice") =
        some (Node.file { size := 1073741824, formatted := true }) :=
  ⟨by decide, by decide,
    (C10_storage_isolation_plain_ids (NewStorageManager defaultConfig) "bob" "alice"
      (by decide) (by decide) (by decide)).1,
    ((C10_storage_isolation_plain_ids (NewStorageManager defaultConfig) "bob" "alice"
      (by decide) (by decide) (by decide)).2.2.2 (scriptedHost []) aliceWorld).1.trans
      (by decide)⟩

/-- Counterexample to C10 as stated: under the default configuration the distinct
user IDs `""` and `"alice"`. The directory `CleanupStorage ""` removes is
`VMDataDir` itself, not something strictly inside it; it contains the
directory of alice, and the call, which reports no error, removes both of her
images. -/
theorem C10_counterexample :
    ("" : String) ≠ "alice" ∧
    (NewStorageManager defaultConfig).userDir "" = "/var/lib/firecracker/vms" ∧
    (NewStorageManager defaultConfig).userDir "alice" = "/var/lib/firecracker/vms/alice" ∧
    strictlyInside defaultConfig.VMDataDir ((NewStorageManager defaultConfig).userDir "") = false ∧
    underDir ((NewStorageManager defaultConfig).userDir "")
      ((NewStorageManager defaultConfig).userDir "alice") = true ∧
    (NewStorageManager defaultConfig).apart "" "alice" = false ∧
    aliceWorld.fs ((NewStorageManager defaultConfig).rootfsPath "alice") =
      some (Node.file { size := 1073741824, formatted := true }) ∧
    ((NewStorageManager defaultConfig).CleanupStorage (scriptedHost []) aliceWorld "").1 = none ∧
    ((NewStorageManager defaultConfig).CleanupStorage (scriptedHost []) aliceWorld "").2.fs
      ((NewStorageManager defaultConfig).rootfsPath "alice") = none ∧
    ((NewStorageManager defaultConfig).CleanupStorage (scriptedHost []) aliceWorld "").2.fs
      ((NewStorageManager defaultConfig).dataPath "alice") = none := by
  refine ⟨by decide, by decide, by decide, by decide, by decide, by decide, by decide,
    by decide, by decide, by decide⟩

theorem MkdirAll_ok (h : Host) (fs : FS) (d : String) (hok : (MkdirAll h fs d).1 = none) :
    (MkdirAll h fs d).2 d = some Node.dir ∧ ∀ p, p ≠ d → (MkdirAll h fs d).2 p = fs p := by
  unfold MkdirAll at hok ⊢
  cases hd : fs d with
  | some n =>
    cases n with
    | dir =>
      simp [hd]
    | file f =>
      simp only [hd] at hok
      exact absurd hok (by simp)
  | none =>
    simp only [hd] at hok ⊢
    by_cases he : d = ""
    · simp only [he, if_true] at hok
      exact absurd hok (by simp)
    · simp only [he, if_false] at hok ⊢
      cases hm : h.mkdirErr fs d with
      | some e =>
        simp only [hm] at hok
        exact absurd hok (by simp)
      | none =>
        simp only [hm]
        exact ⟨by simp, fun p hp => by simp [hp]⟩

theorem MkdirAll_dir (h : Host) (fs : FS) (d : String) (hd : fs d = some Node.dir) :
    MkdirAll h fs d = (none, fs) := by
  unfold MkdirAll
  rw [hd]

theorem child_ne_dir (dir : String) (name : String) (hn : Plain name.data) :
    Join dir name ≠ dir := by
  intro e
  have h1 := (Join_plain dir name hn).1
  rw [e] at h1
  have := congrArg List.length h1
  simp at this

theorem getLast_four (a b c d : String) : [a, b, c, d].getLast? = some d := rfl

theorem getLast_three (a b c : String) : [a, b, c].getLast? = some c := rfl

theorem data_reuse (sm : StorageManager) (h : Host) (w : World) (u : String) (s : Int)
    (hdir : w.fs (sm.userDir u) = some Node.dir) (hst : statOk w.fs (sm.dataPath u) = true) :
    sm.ProvisionDataVolume h w u s = ((sm.dataPath u, none), w) := by
  unfold StorageManager.ProvisionDataVolume
  rw [MkdirAll_dir h w.fs _ hdir]
  simp [hst]

theorem rootfs_reuse (sm : StorageManager) (h : Host) (w : World) (u : String)
    (hdir : w.fs (sm.userDir u) = some Node.dir) (hst : statOk w.fs (sm.rootfsPath u) = true) :
    sm.ProvisionRootfs h w u = ((sm.rootfsPath u, none), w) := by
  unfold StorageManager.ProvisionRootfs
  rw [MkdirAll_dir h w.fs _ hdir]
  simp [hst]

theorem command_keeps_dir (h : Host) (hwb : h.WellBehaved) (w : World) (argv : List String)
    (target dir : String)
    (hhead : argv.head? = some "cp" ∨ argv.head? = some "truncate" ∨
      argv.head? = some "mkfs.ext4")
    (hlast : argv.getLast? = some target) (hne : target ≠ dir)
    (hdir : w.fs dir = some Node.dir) :
    (CombinedOutput h w argv).2.fs dir = some Node.dir := by
  have := (hwb w argv target hhead hlast).1 dir (Ne.symm hne)
  simp only [CombinedOutput]
  rw [this]
  exact hdir

theorem command_ok_file (h : Host) (hwb : h.WellBehaved) (w : World) (argv : List String)
    (target : String)
    (hhead : argv.head? = some "cp" ∨ argv.head? = some "truncate" ∨
      argv.head? = some "mkfs.ext4")
    (hlast : argv.getLast? = some target) (hok : (CombinedOutput h w argv).1.err = none) :
    statOk (CombinedOutput h w argv).2.fs target = true := by
  obtain ⟨f, hf⟩ := (hwb w argv target hhead hlast).2 hok
  simp only [CombinedOutput, statOk]
  rw [hf]
  rfl

theorem data_after_success (sm : StorageManager) (h : Host) (hwb : h.WellBehaved) (w : World)
    (u : String) (s : Int) (p : String) (w1 : World)
    (hfirst : sm.ProvisionDataVolume h w u s = ((p, none), w1)) :
    p = sm.dataPath u ∧ w1.fs (sm.userDir u) = some Node.dir ∧
      statOk w1.fs (sm.dataPath u) = true := by
  have hne : sm.dataPath u ≠ sm.userDir u := child_ne_dir _ _ plain_data
  unfold StorageManager.ProvisionDataVolume at hfirst
  cases hm : (MkdirAll h w.fs (sm.userDir u)).1 with
  | some e =>
    rw [hm] at hfirst
    simp at hfirst
  | none =>
    rw [hm] at hfirst
    have hmk := MkdirAll_ok h w.fs _ hm
    simp only at hfirst
    by_cases hst : statOk (MkdirAll h w.fs (sm.userDir u)).2 (sm.dataPath u) = true
    · rw [if_pos hst] at hfirst
      simp only [Prod.mk.injEq, and_true] at hfirst
      obtain ⟨hp, hw⟩ := hfirst
      subst hw
      exact ⟨hp.symm, hmk.1, hst⟩
    · rw [if_neg hst] at hfirst
      generalize hw0 : ({ w with fs := (MkdirAll h w.fs (sm.userDir u)).2 } : World) = w0
        at hfirst
      have hd0 : w0.fs (sm.userDir u) = some Node.dir := by
        rw [← hw0]
        exact hmk.1
      cases h1 : (CombinedOutput h w0
          ["truncate", "-s", toString s ++ "M", sm.dataPath u]).1.err with
      | some e1 =>
        rw [h1] at hfirst
        simp at hfirst
      | none =>
        rw [h1] at hfirst
        simp only at hfirst
        have hd1 := command_keeps_dir h hwb w0
          ["truncate", "-s", toString s ++ "M", sm.dataPath u] (sm.dataPath u) (sm.userDir u)
          (Or.inr (Or.inl rfl)) (getLast_four _ _ _ _) hne hd0
        cases h2 : (CombinedOutput h
            (CombinedOutput h w0 ["truncate", "-s", toString s ++ "M", sm.dataPath u]).2
            ["mkfs.ext4", "-q", "-F", sm.dataPath u]).1.err with
        | some e2 =>
          rw [h2] at hfirst
          simp at hfirst
        | none =>
          rw [h2] at hfirst
          simp only [Prod.mk.injEq, and_true] at hfirst
          obtain ⟨hp, hw⟩ := hfirst
          subst hw
          exact ⟨hp.symm,
            command_keeps_dir h hwb _ ["mkfs.ext4", "-q", "-F", sm.dataPath u]
              (sm.dataPath u) (sm.userDir u)
              (Or.inr (Or.inr rfl)) (getLast_four _ _ _ _) hne hd1,
            command_ok_file h hwb _ ["mkfs.ext4", "-q", "-F", sm.dataPath u] (sm.dataPath u)
              (Or.inr (Or.inr rfl)) (getLast_four _ _ _ _) h2⟩

theorem rootfs_after_success (sm : StorageManager) (h : Host) (hwb : h.WellBehaved) (w : World)
    (u : String) (p : String) (w1 : World)
    (hfirst : sm.ProvisionRootfs h w u = ((p, none), w1)) :
    p = sm.rootfsPath u ∧ w1.fs (sm.userDir u) = some Node.dir ∧
      statOk w1.fs (sm.rootfsPath u) = true := by
  have hne : sm.rootfsPath u ≠ sm.userDir u := child_ne_dir _ _ plain_rootfs
  unfold StorageManager.ProvisionRootfs at hfirst
  cases hm : (MkdirAll h w.fs (sm.userDir u)).1 with
  | some e =>
    rw [hm] at hfirst
    simp at hfirst
  | none =>
    rw [hm] at hfirst
    have hmk := MkdirAll_ok h w.fs _ hm
    simp only at hfirst
    by_cases hst : statOk (MkdirAll h w.fs (sm.userDir u)).2 (sm.rootfsPath u) = true
    · rw [if_pos hst] at hfirst
      simp only [Prod.mk.injEq, and_true] at hfirst
      obtain ⟨hp, hw⟩ := hfirst
      subst hw
      exact ⟨hp.symm, hmk.1, hst⟩
    · rw [if_neg hst] at hfirst
      generalize hw0 : ({ w with fs := (MkdirAll h w.fs (sm.userDir u)).2 } : World) = w0
        at hfirst
      have hd0 : w0.fs (sm.userDir u) = some Node.dir := by
        rw [← hw0]
        exact hmk.1
      have hd1 := command_keeps_dir h hwb w0
        ["cp", "--reflink=auto", sm.cfg.BaseRootfsPath, sm.rootfsPath u]
        (sm.rootfsPath u) (sm.userDir u) (Or.inl rfl) (getLast_four _ _ _ _) hne hd0
      cases h1 : (CombinedOutput h w0
          ["cp", "--reflink=auto", sm.cfg.BaseRootfsPath, sm.rootfsPath u]).1.err with
      | none =>
        rw [h1] at hfirst
        simp only [Prod.mk.injEq, and_true] at hfirst
        obtain ⟨hp, hw⟩ := hfirst
        subst hw
        exact ⟨hp.symm, hd1,
          command_ok_file h hwb _
            ["cp", "--reflink=auto", sm.cfg.BaseRootfsPath, sm.rootfsPath u]
            (sm.rootfsPath u) (Or.inl rfl) (getLast_four _ _ _ _) h1⟩
      | some e1 =>
        rw [h1] at hfirst
        simp only at hfirst
        cases h2 : (CombinedOutput h
            (CombinedOutput h w0
              ["cp", "--reflink=auto", sm.cfg.BaseRootfsPath, sm.rootfsPath u]).2
            ["cp", sm.cfg.BaseRootfsPath, sm.rootfsPath u]).1.err with
        | some e2 =>
          rw [h2] at hfirst
          simp at hfirst
        | none =>
          rw [h2] at hfirst
          simp only [Prod.mk.injEq, and_true] at hfirst
          obtain ⟨hp, hw⟩ := hfirst
          subst hw
          exact ⟨hp.symm,
            command_keeps_dir h hwb _ ["cp", sm.cfg.BaseRootfsPath, sm.rootfsPath u]
              (sm.rootfsPath u) (sm.userDir u)
              (Or.inl rfl) (getLast_three _ _ _) hne hd1,
            command_ok_file h hwb _ ["cp", sm.cfg.BaseRootfsPath, sm.rootfsPath u]
              (sm.rootfsPath u) (Or.inl rfl) (getLast_three _ _ _) h2⟩

/-- Claim C8. Provisioning is idempotent, on a host whose `cp`, `truncate` and
`mkfs.ext4` change only their target path and leave a file there when they
report success: if `ProvisionDataVolume userID s1` succeeds with path `p` in
world `w1`, then `p` is `<VMDataDir>/<userID>/data.ext4` and, for every size
`s2`, a second call in `w1` returns `p` with no error and leaves `w1` as it is:
no command is run (so neither `truncate` nor `mkfs.ext4`) and no file is
changed. Likewise for `ProvisionRootfs`, whose second call runs no `cp`. -/
theorem C8_provisioning_idempotent (sm : StorageManager) (h : Host) (hwb : h.WellBehaved)
    (w : World) (userID : String) :
    (∀ (s1 s2 : Int) (p : String) (w1 : World),
      sm.ProvisionDataVolume h w userID s1 = ((p, none), w1) →
      p = Join (Join sm.cfg.VMDataDir userID) "data.ext4" ∧
        sm.ProvisionDataVolume h w1 userID s2 = ((p, none), w1)) ∧
    (∀ (p : String) (w1 : World),
      sm.ProvisionRootfs h w userID = ((p, none), w1) →
      p = Join (Join sm.cfg.VMDataDir userID) "rootfs.ext4" ∧
        sm.ProvisionRootfs h w1 userID = ((p, none), w1)) := by
  constructor
  · intro s1 s2 p w1 hfirst
    obtain ⟨hp, hdir, hst⟩ := data_after_success sm h hwb w userID s1 p w1 hfirst
    subst hp
    exact ⟨rfl, data_reuse sm h w1 userID s2 hdir hst⟩
  · intro p w1 hfirst
    obtain ⟨hp, hdir, hst⟩ := rootfs_after_success sm h hwb w userID p w1 hfirst
    subst hp
    exact ⟨rfl, rootfs_reuse sm h w1 userID hdir hst⟩

theorem storageHost_wellBehaved (b : Bool) : (storageHost b).WellBehaved := by
  intro w argv target hhead hlast
  have ht : argv.getLast?.getD "" = target := by
    rw [hlast]
    rfl
  simp only [storageHost, ht]
  by_cases h1 : argv.head? = some "truncate"
  · simp only [h1, if_true]
    cases b with
    | true =>
      simp only [if_true]
      refine ⟨fun p hp => ?_, fun hok => absurd hok (by simp)⟩
      cases hfs : w.fs target with
      | none => simp [FS.put, hp]
      | some n => rfl
    | false =>
      simp only [Bool.false_eq_true, if_false]
      exact ⟨fun p hp => by simp [FS.put, hp],
        fun _ => ⟨{ size := sizeArg (argv.getD 2 ""), formatted := false }, by simp [FS.put]⟩⟩
  · simp only [h1, if_false]
    by_cases h2 : argv.head? = some "mkfs.ext4"
    · simp only [h2, if_true]
      cases hfs : w.fs target with
      | none => exact ⟨fun p _ => rfl, fun hok => absurd hok (by simp)⟩
      | some n =>
        cases n with
        | dir => exact ⟨fun p _ => rfl, fun hok => absurd hok (by simp)⟩
        | file f =>
          exact ⟨fun p hp => by simp [FS.put, hp],
            fun _ => ⟨{ f with formatted := true }, by simp [FS.put]⟩⟩
    · simp only [h2, if_false]
      by_cases h3 : argv.head? = some "cp"
      · simp only [h3, if_true]
        cases hfs : w.fs (argv.getD (argv.length - 2) "") with
        | none => exact ⟨fun p _ => rfl, fun hok => absurd hok (by simp)⟩
        | some n =>
          cases n with
          | dir => exact ⟨fun p _ => rfl, fun hok => absurd hok (by simp)⟩
          | file f =>
            exact ⟨fun p hp => by simp [FS.put, hp], fun _ => ⟨f, by simp [FS.put]⟩⟩
      · rcases hhead with e | e | e
        · exact absurd e h3
        · exact absurd e h1
        · exact absurd e h2

/-- Witness for C8: alice under the default configuration on a host where every
command works. The first call, for 512 MB, runs `truncate` and `mkfs.ext4`
and leaves a formatted image of 512 MiB; the second call, for 1024 MB,
returns the same path, runs nothing and leaves the image at 512 MiB. -/
theorem C8_provisioning_idempotent_witness :
    ((NewStorageManager defaultConfig).ProvisionDataVolume (storageHost false) emptyWorld
        "alice" 512).1 = ("/var/lib/firecracker/vms/alice/data.ext4", none) ∧
    ((NewStorageManager defaultConfig).ProvisionDataVolume (storageHost false) emptyWorld
        "alice" 512).2.log =
      [["truncate", "-s", "512M", "/var/lib/firecracker/vms/alice/data.ext4"],
       ["mkfs.ext4", "-q", "-F", "/var/lib/firecracker/vms/alice/data.ext4"]] ∧
    ((NewStorageManager defaultConfig).ProvisionDataVolume (storageHost false) emptyWorld
        "alice" 512).2.fs "/var/lib/firecracker/vms/alice/data.ext4" =
      some (Node.file { size := 536870912, formatted := true }) ∧
    (NewStorageManager defaultConfig).ProvisionDataVolume (storageHost false)
        ((NewStorageManager defaultConfig).ProvisionDataVolume (storageHost false) emptyWorld
          "alice" 512).2 "alice" 1024 =
      (("/var/lib/firecracker/vms/alice/data.ext4", none),
        ((NewStorageManager defaultConfig).ProvisionDataVolume (storageHost false) emptyWorld
          "alice" 512).2) :=
  ⟨by decide, by decide, by decide,
    ((C8_provisioning_idempotent (NewStorageManager defaultConfig) (storageHost false)
      (storageHost_wellBehaved false) emptyWorld "alice").1 512 1024
        "/var/lib/firecracker/vms/alice/data.ext4"
        ((NewStorageManager defaultConfig).ProvisionDataVolume (storageHost false) emptyWorld
          "alice" 512).2 (Prod.ext (by decide) rfl)).2⟩

/-- The sibling path of C9: when the directory is there, no image exists, `truncate`
succeeds and `mkfs.ext4` fails, `ProvisionDataVolume` returns the format error
and, after its `os.Remove`, no file is left at the data path. -/
theorem format_failure_removes (sm : StorageManager) (h : Host) (w : World) (u : String)
    (s : Int) (e : String)
    (hmk : (MkdirAll h w.fs (sm.userDir u)).1 = none)
    (hst : statOk (MkdirAll h w.fs (sm.userDir u)).2 (sm.dataPath u) = false)
    (ht : (CombinedOutput h { w with fs := (MkdirAll h w.fs (sm.userDir u)).2 }
      ["truncate", "-s", toString s ++ "M", sm.dataPath u]).1.err = none)
    (hf : (CombinedOutput h
      (CombinedOutput h { w with fs := (MkdirAll h w.fs (sm.userDir u)).2 }
        ["truncate", "-s", toString s ++ "M", sm.dataPath u]).2
      ["mkfs.ext4", "-q", "-F", sm.dataPath u]).1.err = some e) :
    (sm.ProvisionDataVolume h w u s).1.1 = "" ∧
      (∃ out, (sm.ProvisionDataVolume h w u s).1.2 =
        some { format := "failed to format data volume: %s: %w", operands := [out],
               cause := some e }) ∧
      ∀ f, (sm.ProvisionDataVolume h w u s).2.fs (sm.dataPath u) ≠ some (Node.file f) := by
  refine ⟨?_, ?_, ?_⟩
  · simp [StorageManager.ProvisionDataVolume, hmk, hst, ht, hf]
  · simp [StorageManager.ProvisionDataVolume, hmk, hst, ht, hf]
  · intro f
    simp only [StorageManager.ProvisionDataVolume, hmk, hst, ht, hf, Bool.false_eq_true,
      if_false]
    generalize (CombinedOutput h
        (CombinedOutput h { w with fs := (MkdirAll h w.fs (sm.userDir u)).2 }
          ["truncate", "-s", toString s ++ "M", sm.dataPath u]).2
        ["mkfs.ext4", "-q", "-F", sm.dataPath u]).2.fs = fs2
    unfold Remove
    cases hfs : fs2 (sm.dataPath u) with
    | none => simp [hfs]
    | some n =>
      cases n with
      | dir => simp [hfs]
      | file g => simp

/-- Claim C9 does not hold of the code when `truncate` fails after creating the file.
Under the default configuration, with no data image present, on a host that
satisfies what C8 asks of its commands and whose `truncate` creates the file
and then fails (the size exceeds the file size limit):
`ProvisionDataVolume "alice" 33554432` returns the create error without
removing anything, a zero-length unformatted file stays at the data path,
`mkfs.ext4` was never run, and the next `ProvisionDataVolume "alice" 512`
returns that file as the existing volume with no error. -/
theorem C9_truncate_failure_leaves_image :
    (storageHost true).WellBehaved ∧
    emptyWorld.fs ((NewStorageManager defaultConfig).dataPath "alice") = none ∧
    ((NewStorageManager defaultConfig).ProvisionDataVolume (storageHost true) emptyWorld
        "alice" 33554432).1 =
      ("", some { format := "failed to create data volume: %s: %w"
                  operands := ["truncate: failed to truncate: File too large"]
                  cause := some "exit status 1" }) ∧
    ((NewStorageManager defaultConfig).ProvisionDataVolume (storageHost true) emptyWorld
        "alice" 33554432).2.fs ((NewStorageManager defaultConfig).dataPath "alice") =
      some (Node.file { size := 0, formatted := false }) ∧
    ((NewStorageManager defaultConfig).ProvisionDataVolume (storageHost true) emptyWorld
        "alice" 33554432).2.log =
      [["truncate", "-s", "33554432M", "/var/lib/firecracker/vms/alice/data.ext4"]] ∧
    ((NewStorageManager defaultConfig).ProvisionDataVolume (storageHost true)
        ((NewStorageManager defaultConfig).ProvisionDataVolume (storageHost true) emptyWorld
          "alice" 33554432).2 "alice" 512).1 =
      ("/var/lib/firecracker/vms/alice/data.ext4", none) ∧
    ((NewStorageManager defaultConfig).ProvisionDataVolume (storageHost true)
        ((NewStorageManager defaultConfig).ProvisionDataVolume (storageHost true) emptyWorld
          "alice" 33554432).2 "alice" 512).2.fs "/var/lib/firecracker/vms/alice/data.ext4" =
      some (Node.file { size := 0, formatted := false }) :=
  ⟨storageHost_wellBehaved true, by decide, by decide, by decide, by decide, by decide,
    by decide⟩

end Clawdotter
